import Mathlib

/-!
Shallow embedding of the retrieval / deduplication / evidence-contract core of
the researcher-twin repository, together with theorems settling the frozen
claims about it.

Modelling conventions:
* JavaScript numbers are modelled as rationals; Math.sqrt (used only inside
  cosineSimilarity) is an explicit function parameter, so every theorem holds
  for an arbitrary square-root function.
* SHA-1 hashing (getTextHash) is modelled by the normalized text itself: the
  code only ever compares hashes for equality, and SHA-1 is assumed injective
  on the corpus.
* Strings are ASCII in all concrete inputs; JavaScript character classes
  (\s, \w, [a-z0-9]) are modelled on ASCII exactly.
* Async store/embedding plumbing is modelled by passing the store snapshot and
  the query embedding (an Option) explicitly; the embedding service is a
  function of the query text.
-/

namespace ResearcherTwin

/-- ASCII whitespace as matched by the JavaScript \s class on ASCII input. -/
def isWs (c : Char) : Bool :=
  c = ' ' || c = '\t' || c = '\n' || c = '\r' || c = '\x0b' || c = '\x0c'

/-- ASCII lower-casing, as String.prototype.toLowerCase acts on ASCII. -/
def jsToLower (c : Char) : Char :=
  if 'A' ≤ c ∧ c ≤ 'Z' then Char.ofNat (c.toNat + 32) else c

def lowerChars (l : List Char) : List Char := l.map jsToLower

/-- JavaScript \w on ASCII: letters, digits, underscore. -/
def isWordChar (c : Char) : Bool := c.isAlphanum || c = '_'

def isLowerAlnum (c : Char) : Bool := ('a' ≤ c ∧ c ≤ 'z') || ('0' ≤ c ∧ c ≤ '9')

/-- Replace each maximal run of characters satisfying p by the single
character r (the semantics of text.replace(/CLASS+/g, r)). The Bool flag
records whether the previous character was inside a run. -/
def collapseRunsAux (p : Char → Bool) (r : Char) : Bool → List Char → List Char
  | _, [] => []
  | inRun, c :: rest =>
    if p c then
      if inRun then collapseRunsAux p r true rest
      else r :: collapseRunsAux p r true rest
    else c :: collapseRunsAux p r false rest

def collapseRuns (p : Char → Bool) (r : Char) (l : List Char) : List Char :=
  collapseRunsAux p r false l

/-- text.replace(/\s+/g, ' '). -/
def collapseWs (l : List Char) : List Char := collapseRuns isWs ' ' l

def trimLeft (l : List Char) : List Char := l.dropWhile isWs

def trimRight (l : List Char) : List Char := (l.reverse.dropWhile isWs).reverse

/-- String.prototype.trim on ASCII. -/
def jsTrim (l : List Char) : List Char := trimRight (trimLeft l)

/-- Worker for splitRuns: out holds completed fields (reversed), acc the
current field (reversed), inRun whether the previous character was a
separator. A field is emitted when a separator run starts; a trailing run
emits one final empty field, matching JavaScript split semantics. -/
def splitRunsGo (p : Char → Bool) : List (List Char) → List Char → Bool →
    List Char → List (List Char)
  | out, acc, inRun, [] =>
    ((if inRun then [] :: out else acc.reverse :: out)).reverse
  | out, acc, inRun, c :: rest =>
    if p c then
      if inRun then splitRunsGo p out [] true rest
      else splitRunsGo p (acc.reverse :: out) [] true rest
    else splitRunsGo p out (c :: acc) false rest

/-- Split on maximal runs of separator characters, keeping the (possibly
empty) fields before a leading run and after a trailing run — the semantics
of String.prototype.split with a /CLASS+/ regex. -/
def splitRuns (p : Char → Bool) (l : List Char) : List (List Char) :=
  splitRunsGo p [] [] false l

/-- Bool substring test (String.prototype.includes). -/
def hasSubstr (pat : List Char) : List Char → Bool
  | [] => pat.isEmpty
  | c :: rest => pat.isPrefixOf (c :: rest) || hasSubstr pat rest

/-- Prop substring relation. -/
def SubstrOf (pat s : List Char) : Prop := ∃ l r, s = l ++ pat ++ r

/-! ## Chunker (src/lib/server/text.ts, chunkText) -/

/-- text.replace(/\r\n/g, '\n'). -/
def replaceCRLF : List Char → List Char
  | [] => []
  | '\r' :: '\n' :: rest => '\n' :: replaceCRLF rest
  | c :: rest => c :: replaceCRLF rest

/-- The normalized text the chunker operates on. -/
def chunkNormalize (text : String) : List Char := jsTrim (replaceCRLF text.toList)

/-- The chunker's while-loop, producing the (start, end) windows. Fuel makes
the possibly non-terminating loop total: none means the loop did not finish
within fuel iterations. Mirrors:
while (start < len) { end = min(start+size, len); push; if (end >= len) break;
start = max(0, end - overlap) } — Nat subtraction is exactly max(0, ·). -/
def chunkLoop (len size overlap : Nat) : Nat → Nat → Option (List (Nat × Nat))
  | 0, _ => none
  | fuel + 1, start =>
    if start < len then
      let e := min (start + size) len
      if len ≤ e then some [(start, e)]
      else
        match chunkLoop len size overlap fuel (e - overlap) with
        | none => none
        | some ws => some ((start, e) :: ws)
    else some []

/-- slice each window, trim it, and drop empties (filter(Boolean)). -/
def sliceChunks (cs : List Char) (ws : List (Nat × Nat)) : List String :=
  (ws.map fun w => String.mk (jsTrim ((cs.drop w.1).take (w.2 - w.1)))).filter
    fun s => s ≠ ""

/-- chunkText with explicit fuel for the window loop. -/
def chunkTextFuel (fuel : Nat) (text : String) (size overlap : Nat) :
    Option (List String) :=
  let normalized := chunkNormalize text
  if normalized = [] then some []
  else (chunkLoop normalized.length size overlap fuel 0).map (sliceChunks normalized)

/-- The chunker terminates on the given input. -/
def chunkTerminates (text : String) (size overlap : Nat) : Prop :=
  ∃ fuel, (chunkTextFuel fuel text size overlap).isSome

/-! ## Similarity kernel (src/lib/server/ragStore.ts) -/

/-- toLowerCase, collapse \s+ to single spaces, trim. -/
def normalizeTextForHash (s : String) : String :=
  String.mk (jsTrim (collapseWs (lowerChars s.toList)))

/-- getTextHash: SHA-1 of the normalized text. Modelled by the normalized
text itself — the code only compares hashes for equality and SHA-1 is
assumed collision-free. -/
def getTextHash (s : String) : String := normalizeTextForHash s

/-- split(/\W+/) on an already prepared character list. -/
def splitNonWord (l : List Char) : List String :=
  (splitRuns (fun c => !isWordChar c) l).map String.mk

/-- Word 5-gram set of a text (toWordFiveGrams). -/
def toWordFiveGrams (text : String) : Finset String :=
  let terms := ((splitNonWord (lowerChars text.toList)).map
      fun t => String.mk (jsTrim t.toList)).filter fun t => t.length > 1
  if terms.length < 5 then
    if terms.isEmpty then ∅ else {String.intercalate " " terms}
  else
    ((List.range (terms.length - 4)).map
      fun i => String.intercalate " " ((terms.drop i).take 5)).toFinset

def jaccard (a b : Finset String) : ℚ :=
  if a.card = 0 ∨ b.card = 0 then 0
  else
    let inter : Nat := (a ∩ b).card
    let union : Nat := a.card + b.card - inter
    if union = 0 then 0 else (inter : ℚ) / (union : ℚ)

def lexicalOverlapScore (a b : String) : ℚ :=
  jaccard (toWordFiveGrams a) (toWordFiveGrams b)

/-- lowercase, collapse \s+ to ' ', strip non-[a-z0-9 ], trim. -/
def normalizeSentence (s : String) : String :=
  String.mk (jsTrim ((collapseWs (lowerChars s.toList)).filter
    fun c => isLowerAlnum c || c = ' '))

/-- Scanner states for split(/[.!?]\s+|\n+/): inside a field, inside a
punctuation+whitespace separator, or inside a newline-run separator. -/
inductive SentSplitMode | field | wsRun | nlRun

/-- Worker for the sentence-boundary split. A sentence punctuation mark only
separates when followed by at least one whitespace character; a newline run
always separates; a separator at the end of the text yields a final empty
field — exactly the JavaScript split semantics for this regex. -/
def sentSplitGo : List (List Char) → List Char → SentSplitMode → List Char →
    List (List Char)
  | out, acc, .field, [] => (acc.reverse :: out).reverse
  | out, _, _, [] => ([] :: out).reverse
  | out, acc, .field, c :: rest =>
    if c = '.' || c = '!' || c = '?' then
      match rest with
      | [] => ((c :: acc).reverse :: out).reverse
      | d :: rest' =>
        if isWs d then sentSplitGo (acc.reverse :: out) [] .wsRun rest'
        else sentSplitGo out (c :: acc) .field (d :: rest')
    else if c = '\n' then sentSplitGo (acc.reverse :: out) [] .nlRun rest
    else sentSplitGo out (c :: acc) .field rest
  | out, acc, .wsRun, c :: rest =>
    if isWs c then sentSplitGo out acc .wsRun rest
    else sentSplitGo out [c] .field rest
  | out, acc, .nlRun, c :: rest =>
    if c = '\n' then sentSplitGo out acc .nlRun rest
    else sentSplitGo out [c] .field rest

/-- splitSentences: split on sentence boundaries, normalize, keep length ≥ 20. -/
def splitSentences (s : String) : List String :=
  ((sentSplitGo [] [] .field s.toList).map
    fun cs => normalizeSentence (String.mk cs)).filter fun t => 20 ≤ t.length

/-- Fraction of thesis sentences absent from the publication sentence set. -/
def novelSentenceRatio (thesisText publicationText : String) : ℚ :=
  let thesisSentences := splitSentences thesisText
  if thesisSentences.isEmpty then 0
  else
    let pubSentences := splitSentences publicationText
    ((thesisSentences.filter fun s => decide (s ∉ pubSentences)).length : ℚ) /
      (thesisSentences.length : ℚ)

/-- Cosine similarity; Math.sqrt is the explicit parameter sqrtQ. -/
def cosineSimilarity (sqrtQ : ℚ → ℚ) (a b : List ℚ) : ℚ :=
  if a.length ≠ b.length ∨ a.length = 0 then 0
  else
    let dot := ((a.zip b).map fun p => p.1 * p.2).sum
    let normA := (a.map fun x => x * x).sum
    let normB := (b.map fun x => x * x).sum
    if normA = 0 ∨ normB = 0 then 0
    else dot / (sqrtQ normA * sqrtQ normB)

/-- keywordScore: fraction of candidate terms present in the query term set. -/
def keywordScore (query candidate : String) : ℚ :=
  let queryTerms : Finset String :=
    ((splitNonWord (lowerChars query.toList)).filter fun t => t ≠ "").toFinset
  if queryTerms.card = 0 then 0
  else
    let candidateTerms := splitNonWord (lowerChars candidate.toList)
    let score : Nat := (candidateTerms.filter fun t => decide (t ∈ queryTerms)).length
    (score : ℚ) / (max candidateTerms.length 1 : ℚ)

/-! ## Data model (src/lib/server/ragStore.ts) -/

inductive RagSourceRole | publication | thesis | web | other
deriving DecidableEq, Repr

inductive RagFileType | pdf | docx | txt
deriving DecidableEq, Repr

inductive RagDocStatus | active | failed | deleted
deriving DecidableEq, Repr

inductive RagSourceType | upload | crawl
deriving DecidableEq, Repr

structure RagDocumentMetadata where
  title : Option String := none
  year : Option String := none
  venue : Option String := none
  chapter : Option String := none
  sectionName : Option String := none
  subsection : Option String := none
  topics : Option (List String) := none
  canonicalCitation : Option String := none
deriving DecidableEq, Repr

structure RagDocument where
  id : String
  ragId : String
  fileName : String
  fileType : RagFileType
  status : RagDocStatus
  uploadedAt : String
  sourceType : RagSourceType
  sourceRef : Option String := none
  documentCount : Nat
  sourceRole : RagSourceRole
  metadata : Option RagDocumentMetadata := none
deriving DecidableEq, Repr

structure RagChunk where
  id : String
  ragId : String
  documentId : String
  text : String
  textHash : Option String := none
  embedding : Option (List ℚ) := none
  sourceName : String
  chunkIndex : Nat
  sourceRole : RagSourceRole
  paperKey : Option String := none
  documentTitle : Option String := none
  headingPath : Option String := none
  pageStart : Option Nat := none
  pageEnd : Option Nat := none
  redundantOf : Option String := none
  redundancyScore : Option ℚ := none
  isRedundant : Bool := false
deriving DecidableEq, Repr

structure RagStore where
  documents : List RagDocument
  chunks : List RagChunk
deriving DecidableEq, Repr

structure DedupConfig where
  cosineThreshold : ℚ
  lexicalThreshold : ℚ
  novelSentenceThreshold : ℚ
deriving DecidableEq, Repr

/-- Defaults 0.96 / 0.85 / 0.2 (all already within the clamp range [0,1]). -/
def defaultDedupConfig : DedupConfig :=
  { cosineThreshold := 0.96, lexicalThreshold := 0.85, novelSentenceThreshold := 0.2 }

def defaultRedundantThesisPenalty : ℚ := 0.08

def DEFAULT_RAG_TOP_K : Nat := 5

/-! ## Redundancy engine (annotateThesisRedundancy) -/

/-- chunk.textHash || getTextHash(chunk.text). -/
def effectiveHash (c : RagChunk) : String := c.textHash.getD (getTextHash c.text)

def backfillHash (c : RagChunk) : RagChunk := { c with textHash := some (effectiveHash c) }

def pubOf (rid : String) (c : RagChunk) : Bool :=
  decide (c.ragId = rid ∧ c.sourceRole = RagSourceRole.publication)

def thesisOf (rid : String) (c : RagChunk) : Bool :=
  decide (c.ragId = rid ∧ c.sourceRole = RagSourceRole.thesis)

/-- Cosine with the default 0 when either side lacks an embedding, as the
scan computes it. -/
def pairCosine (sqrtQ : ℚ → ℚ) (t p : RagChunk) : ℚ :=
  match t.embedding, p.embedding with
  | some a, some b => cosineSimilarity sqrtQ a b
  | _, _ => 0

def combinedSim (sqrtQ : ℚ → ℚ) (t p : RagChunk) : ℚ :=
  (pairCosine sqrtQ t p + lexicalOverlapScore t.text p.text) / 2

/-- A publication chunk qualifies in the near-duplicate scan: lexical score
at or above the lexical threshold and (embedding-defaulted) cosine at or
above the cosine threshold. -/
def QualNearDup (cfg : DedupConfig) (sqrtQ : ℚ → ℚ) (t p : RagChunk) : Prop :=
  cfg.lexicalThreshold ≤ lexicalOverlapScore t.text p.text ∧
    cfg.cosineThreshold ≤ pairCosine sqrtQ t p

/-- Body of the near-duplicate fold: skip when the lexical score is below
the threshold, skip when the cosine (0 if either embedding is missing) is
below the threshold, otherwise keep the pair with the higher combined
similarity (strict improvement, so the first maximum wins). -/
def scanF (cfg : DedupConfig) (sqrtQ : ℚ → ℚ) (t : RagChunk)
    (acc : Option (RagChunk × ℚ)) (p : RagChunk) : Option (RagChunk × ℚ) :=
  let lexical := lexicalOverlapScore t.text p.text
  if lexical < cfg.lexicalThreshold then acc
  else
    let cosine := pairCosine sqrtQ t p
    if cosine < cfg.cosineThreshold then acc
    else
      let combined := (cosine + lexical) / 2
      match acc with
      | none => some (p, combined)
      | some (_, bestSimilarity) =>
        if bestSimilarity < combined then some (p, combined) else acc

/-- The near-duplicate scan over publication chunks. -/
def nearDupScan (cfg : DedupConfig) (sqrtQ : ℚ → ℚ) (t : RagChunk)
    (pubs : List RagChunk) : Option (RagChunk × ℚ) :=
  pubs.foldl (scanF cfg sqrtQ t) none

/-- The reset at the top of the per-thesis-chunk loop body: backfill the
hash and clear all redundancy fields. -/
def resetChunk (t0 : RagChunk) : RagChunk :=
  { t0 with textHash := some (effectiveHash t0), isRedundant := false,
            redundantOf := none, redundancyScore := none }

/-- Loop body after the reset, operating on the already-reset chunk t: try
the exact hash match first (bucket order = publication list order, so the
first publication with the same hash is used), otherwise run the
near-duplicate scan; both paths gate marking on the novel sentence ratio. -/
def annotateCore (cfg : DedupConfig) (sqrtQ : ℚ → ℚ) (pubs : List RagChunk)
    (t : RagChunk) : RagChunk :=
  if pubs.isEmpty then t
  else
    match pubs.find? (fun p => decide (effectiveHash p = effectiveHash t)) with
    | some exactMatch =>
      if novelSentenceRatio t.text exactMatch.text < cfg.novelSentenceThreshold then
        { t with isRedundant := true, redundantOf := some exactMatch.id,
                 redundancyScore := some 1 }
      else t
    | none =>
      match nearDupScan cfg sqrtQ t pubs with
      | none => t
      | some (bestMatch, bestSimilarity) =>
        if cfg.novelSentenceThreshold ≤ novelSentenceRatio t.text bestMatch.text then t
        else { t with isRedundant := true, redundantOf := some bestMatch.id,
                      redundancyScore := some bestSimilarity }

/-- Per-thesis-chunk body of the annotation loop. -/
def annotateOne (cfg : DedupConfig) (sqrtQ : ℚ → ℚ) (pubs : List RagChunk)
    (t0 : RagChunk) : RagChunk :=
  annotateCore cfg sqrtQ pubs (resetChunk t0)

/-- What happens to each chunk of the store: the namespace's publication
chunks get their hash backfilled, its thesis chunks are re-annotated, all
other chunks are untouched. -/
def annotateStep (cfg : DedupConfig) (sqrtQ : ℚ → ℚ) (rid : String)
    (pubs : List RagChunk) (c : RagChunk) : RagChunk :=
  if pubOf rid c then backfillHash c
  else if thesisOf rid c then annotateOne cfg sqrtQ pubs c
  else c

/-- annotateThesisRedundancy: no-op when the namespace has no thesis chunks
(the early return fires before any hash backfill); otherwise rewrite the
chunk list in place. -/
def annotateThesisRedundancy (cfg : DedupConfig) (sqrtQ : ℚ → ℚ)
    (store : RagStore) (rid : String) : RagStore :=
  let publicationChunks := (store.chunks.filter (pubOf rid)).map backfillHash
  let thesisChunks := store.chunks.filter (thesisOf rid)
  if thesisChunks.isEmpty then store
  else { store with chunks := store.chunks.map (annotateStep cfg sqrtQ rid publicationChunks) }

/-! ## Retrieval over the store (retrieveRelevantChunks) -/

structure RetrieveParams where
  ragId : String
  query : String
  topK : Option Nat := none
  includeSourceRoles : List RagSourceRole := []
  includeDocumentNames : List String := []
  excludeRedundant : Option Bool := none
  maxChunksPerDocument : Option Nat := none

/-- Candidate score: cosine when both embeddings exist, keyword overlap
otherwise, minus the redundant-thesis penalty (redundantOf is never the
empty string in a normalized store, so JS truthiness is isSome). -/
def chunkScore (penalty : ℚ) (sqrtQ : ℚ → ℚ) (queryEmbedding : Option (List ℚ))
    (query : String) (c : RagChunk) : ℚ :=
  let base := match queryEmbedding, c.embedding with
    | some qe, some ce => cosineSimilarity sqrtQ qe ce
    | _, _ => keywordScore query c.text
  if c.sourceRole = RagSourceRole.thesis ∧ c.isRedundant ∧ c.redundantOf.isSome then
    base - penalty
  else base

/-- Sort scored candidates descending by score. The source uses the stable
Array.prototype.sort with comparator (a, b) => b.score - a.score; a stable
insertion sort with relation (second component ≥) produces the same order. -/
def rankCandidates (penalty : ℚ) (sqrtQ : ℚ → ℚ) (queryEmbedding : Option (List ℚ))
    (query : String) (candidates : List RagChunk) : List (RagChunk × ℚ) :=
  List.insertionSort (fun a b => b.2 ≤ a.2)
    (candidates.map fun c => (c, chunkScore penalty sqrtQ queryEmbedding query c))

/-- The per-document-capped selection loop. The per-document counter map is
represented by recounting in the selected-so-far list, which holds the same
counts. -/
def selectCapped (cap k : Nat) : List RagChunk → List RagChunk → List RagChunk
  | [], selected => selected
  | c :: rest, selected =>
    if k ≤ selected.length then selected
    else if cap ≤ (selected.filter fun x => decide (x.documentId = c.documentId)).length then
      selectCapped cap k rest selected
    else selectCapped cap k rest (selected ++ [c])

/-- The candidate filter chain of retrieveRelevantChunks: namespace, roles,
document names, redundancy. -/
def retrieveCandidates (store : RagStore) (params : RetrieveParams) : List RagChunk :=
  let excludeRedundant := params.excludeRedundant.getD false
  let candidates0 := store.chunks.filter fun c => decide (c.ragId = params.ragId)
  let candidates1 :=
    if params.includeSourceRoles.isEmpty then candidates0
    else candidates0.filter fun c => decide (c.sourceRole ∈ params.includeSourceRoles)
  let candidates2 :=
    if params.includeDocumentNames.isEmpty then candidates1
    else candidates1.filter fun c => decide (c.sourceName ∈ params.includeDocumentNames)
  if excludeRedundant then candidates2.filter fun c => !c.isRedundant
  else candidates2

/-- retrieveRelevantChunks: filter candidates by namespace, roles, document
names and redundancy, rank them, then take boundedTopK with an optional
per-document cap. -/
def retrieveRelevantChunks (penalty : ℚ) (sqrtQ : ℚ → ℚ) (store : RagStore)
    (queryEmbedding : Option (List ℚ)) (params : RetrieveParams) : List RagChunk :=
  let topK := params.topK.getD DEFAULT_RAG_TOP_K
  let maxChunksPerDocument := match params.maxChunksPerDocument with
    | some m => if 0 < m then some m else none
    | none => none
  let candidates := retrieveCandidates store params
  if candidates.isEmpty then []
  else
    let ranked := rankCandidates penalty sqrtQ queryEmbedding params.query candidates
    let boundedTopK := max 1 topK
    match maxChunksPerDocument with
    | none => (ranked.map Prod.fst).take boundedTopK
    | some cap => selectCapped cap boundedTopK (ranked.map Prod.fst) []

/-! ## Intent classifier (src/lib/server/agentRuntime.ts) -/

def FUTURE_INTENT_TERMS : List String :=
  ["future", "future directions", "open problem", "open problems", "next step",
   "next steps", "roadmap", "limitation", "limitations"]

def OVERVIEW_INTENT_TERMS : List String :=
  ["overall", "big picture", "summary", "journey", "evolution",
   "problem definition", "research theme", "how your work evolved"]

def COMPARE_TERMS : List String :=
  ["compare", "comparison", "versus", "vs", "difference", "different",
   "better than", "tradeoff", "trade-off"]

def PAPER_SIGNAL_TERMS : List String :=
  ["paper", "publication", "wacv", "cvpr", "cvprw", "iccv", "iccvw", "eccv",
   "eccvw", "tmlr", "bmvc", "iclr", "result", "results", "ablation", "table",
   "metric", "accuracy", "miou", "f1", "auc", "dataset"]

def QUANTITATIVE_SIGNAL_TERMS : List String :=
  ["result", "results", "metric", "metrics", "accuracy", "miou", "f1", "auc",
   "score", "gain", "improvement", "ablation", "table", "benchmark"]

/-- toLowerCase, replace non-[a-z0-9] runs with a space, trim, collapse. -/
def normalizeMatchText (s : String) : String :=
  String.mk (jsTrim (collapseWs
    ((lowerChars s.toList).map fun c => if isLowerAlnum c then c else ' ')))

def tokenizeNormalized (s : String) : List String :=
  (((normalizeMatchText s).splitOn " ").map
    fun t => String.mk (jsTrim t.toList)).filter fun t => 1 < t.length

def hasAnyTerm (query : String) (terms : List String) : Bool :=
  terms.any fun term => hasSubstr term.toList query.toList

/-- Strip a trailing extension of the form dot + 2..6 ASCII alphanumerics
(the regex \.[a-z0-9]\x7b2,6\x7d$ with the i flag). -/
def stripFileExtension (l : List Char) : List Char :=
  let rev := l.reverse
  let k := (rev.takeWhile fun c => c.isAlphanum).length
  if 2 ≤ k ∧ k ≤ 6 ∧ (rev.drop k).head? = some '.' then (rev.drop (k + 1)).reverse
  else l

/-- File-name stem: extension stripped, [_-]+ runs replaced by spaces. -/
def fileStem (fileName : String) : List Char :=
  collapseRuns (fun c => c = '_' || c = '-') ' ' (stripFileExtension fileName.toList)

def dedupKeepFirst (l : List String) : List String :=
  l.foldl (fun acc x => if x ∈ acc then acc else acc ++ [x]) []

def getDocumentAliases (doc : RagDocument) : List String :=
  let base := [normalizeMatchText (String.mk (fileStem doc.fileName))] ++
    (match doc.metadata.bind (fun m => m.title) with
     | some t => [normalizeMatchText t]
     | none => []) ++
    (match doc.metadata.bind (fun m => m.canonicalCitation) with
     | some t => [normalizeMatchText t]
     | none => [])
  (dedupKeepFirst base).filter fun a => a ≠ ""

def scoreDocumentMention (queryNorm : String) (queryTokens : Finset String)
    (doc : RagDocument) : ℚ :=
  (getDocumentAliases doc).foldl
    (fun bestScore aliasStr =>
      if aliasStr = "" then bestScore
      else if hasSubstr aliasStr.toList queryNorm.toList && decide (6 ≤ aliasStr.length) then
        max bestScore 3
      else
        let aliasTokens := (tokenizeNormalized aliasStr).filter fun t => 2 < t.length
        if aliasTokens.isEmpty then bestScore
        else
          let overlap := (aliasTokens.filter fun t => decide (t ∈ queryTokens)).length
          let ratio : ℚ := (overlap : ℚ) / (aliasTokens.length : ℚ)
          if 2 ≤ aliasTokens.length ∧ (0.6 : ℚ) ≤ ratio then
            max bestScore (2 + ratio)
          else if aliasTokens.length = 1 ∧ 1 ≤ ratio then max bestScore 1.25
          else bestScore)
    0

def findMentionedDocuments (query : String) (documents : List RagDocument) :
    List RagDocument :=
  let queryNorm := normalizeMatchText query
  let queryTokens := (tokenizeNormalized queryNorm).toFinset
  let scored := (documents.map
    fun doc => (doc, scoreDocumentMention queryNorm queryTokens doc)).filter
      fun item => decide (0 < item.2)
  (List.insertionSort (fun a b => b.2 ≤ a.2) scored).map Prod.fst

inductive RagIntent
  | paper_specific | paper_compare | technical_cross_paper
  | research_overview | future_directions
deriving DecidableEq, Repr

def detectIntent (query : String) (mentionedDocuments : List RagDocument) : RagIntent :=
  let queryNorm := normalizeMatchText query
  let hasFutureSignals := hasAnyTerm queryNorm FUTURE_INTENT_TERMS
  let hasOverviewSignals := hasAnyTerm queryNorm OVERVIEW_INTENT_TERMS
  let hasCompareSignals := hasAnyTerm queryNorm COMPARE_TERMS
  let paperMentions := mentionedDocuments.filter
    fun doc => decide (doc.sourceRole = RagSourceRole.publication)
  let hasPaperSignals := decide (0 < paperMentions.length) ||
    hasAnyTerm queryNorm PAPER_SIGNAL_TERMS
  if (hasCompareSignals && decide (1 ≤ paperMentions.length)) ||
      decide (2 ≤ paperMentions.length) then
    RagIntent.paper_compare
  else if hasFutureSignals then RagIntent.future_directions
  else if hasOverviewSignals then RagIntent.research_overview
  else if decide (paperMentions.length = 1) && hasPaperSignals then
    RagIntent.paper_specific
  else RagIntent.technical_cross_paper

/-! ## Intent-aware retrieval (retrieveIntentContext) -/

structure IntentMix where
  publication : ℚ
  thesis : ℚ

def getIntentMix : RagIntent → IntentMix
  | RagIntent.paper_specific => { publication := 1, thesis := 0 }
  | RagIntent.paper_compare => { publication := 1, thesis := 0 }
  | RagIntent.technical_cross_paper => { publication := 0.75, thesis := 0.25 }
  | RagIntent.research_overview => { publication := 0.4, thesis := 0.6 }
  | RagIntent.future_directions => { publication := 0.3, thesis := 0.7 }

/-- Math.round on a non-negative rational: floor(q + 1/2). -/
def jsRound (q : ℚ) : Nat := (⌊q + 1 / 2⌋).toNat

def mergeUniqueAux : List String → List RagChunk → List RagChunk
  | _, [] => []
  | seen, c :: rest =>
    if c.id ∈ seen then mergeUniqueAux seen rest
    else c :: mergeUniqueAux (c.id :: seen) rest

def mergeUniqueChunks (chunks : List RagChunk) : List RagChunk :=
  mergeUniqueAux [] chunks

/-- Worker of capChunksPerDocument; counts are recomputed from the output
accumulator, which holds exactly the counter map's values. -/
def capAux (m : Nat) : List RagChunk → List RagChunk → List RagChunk
  | [], acc => acc
  | c :: rest, acc =>
    if m ≤ (acc.filter fun x => decide (x.documentId = c.documentId)).length then
      capAux m rest acc
    else capAux m rest (acc ++ [c])

def capChunksPerDocument (chunks : List RagChunk) (maxPerDocument : Nat) : List RagChunk :=
  if maxPerDocument = 0 then chunks
  else capAux maxPerDocument chunks []

/-- The interleave while-loop; fuel = total input length is always enough,
every iteration consumes at least one element. -/
def interleaveGo : Nat → List RagChunk → List RagChunk → Nat → List RagChunk
  | 0, _, _, _ => []
  | _, _, _, 0 => []
  | _, [], [], _ => []
  | fuel + 1, [], y :: ys, k + 1 => y :: interleaveGo fuel [] ys k
  | fuel + 1, x :: xs, s, k + 1 =>
    match k, s with
    | 0, _ => [x]
    | k' + 1, [] => x :: interleaveGo fuel xs [] (k' + 1)
    | k' + 1, y :: ys => x :: y :: interleaveGo fuel xs ys k'

def interleaveChunks (primary secondary : List RagChunk) (topK : Nat) : List RagChunk :=
  interleaveGo (primary.length + secondary.length) primary secondary topK

structure IntentContext where
  intent : RagIntent
  chunks : List RagChunk
  mentionedDocuments : List RagDocument
  targetDocumentNames : List String
  retrievalNotes : List String
deriving DecidableEq, Repr

def listRagDocuments (store : RagStore) (rid : String) : List RagDocument :=
  store.documents.filter fun doc => decide (doc.ragId = rid ∧ doc.status ≠ RagDocStatus.deleted)

/-- Interleaved publication/thesis pool of the mixed path (role-ratio
targets, per-role retrievals, interleave). The two target-adjusting if
statements of the source are mutually exclusive on intents, so the if/else
chain is equivalent. -/
def mixedCombined0 (penalty : ℚ) (sqrtQ : ℚ → ℚ) (store : RagStore)
    (queryEmbedding : Option (List ℚ)) (ragId query : String) (topK : Nat)
    (intent : RagIntent) (targetDocumentNames : List String)
    (hasPublicationDocs hasThesisDocs : Bool) : List RagChunk :=
  let mix := getIntentMix intent
  let publicationTarget0 : Nat :=
    if hasPublicationDocs then jsRound ((topK : ℚ) * mix.publication) else 0
  let thesisTarget0 : Nat := if hasThesisDocs then topK - publicationTarget0 else 0
  let targets :=
    if (intent = RagIntent.research_overview ∨ intent = RagIntent.future_directions) ∧
        hasPublicationDocs = true then
      let p := max 1 publicationTarget0
      (p, if hasThesisDocs then topK - p else 0)
    else if intent = RagIntent.technical_cross_paper ∧ hasPublicationDocs = true then
      let p := max 1 publicationTarget0
      (p, if hasThesisDocs then topK - p else 0)
    else (publicationTarget0, thesisTarget0)
  let publicationTarget := if hasPublicationDocs then targets.1 else 0
  let thesisTarget := if hasThesisDocs then targets.2 else 0
  let thesisExcludeRedundant :=
    ¬(intent = RagIntent.research_overview ∨ intent = RagIntent.future_directions)
  let publicationChunks :=
    if 0 < publicationTarget then
      retrieveRelevantChunks penalty sqrtQ store queryEmbedding
        { ragId := ragId, query := query, topK := some publicationTarget,
          includeSourceRoles := [RagSourceRole.publication],
          includeDocumentNames :=
            if intent = RagIntent.paper_compare ∧ targetDocumentNames ≠ [] then
              targetDocumentNames
            else [],
          excludeRedundant := some true, maxChunksPerDocument := some 2 }
    else []
  let thesisChunks :=
    if 0 < thesisTarget then
      retrieveRelevantChunks penalty sqrtQ store queryEmbedding
        { ragId := ragId, query := query, topK := some thesisTarget,
          includeSourceRoles := [RagSourceRole.thesis],
          excludeRedundant := some thesisExcludeRedundant,
          maxChunksPerDocument := some 2 }
    else []
  let preferThesisFirst :=
    intent = RagIntent.research_overview ∨ intent = RagIntent.future_directions
  if preferThesisFirst then interleaveChunks thesisChunks publicationChunks topK
  else interleaveChunks publicationChunks thesisChunks topK

def mixedCombined1 (penalty : ℚ) (sqrtQ : ℚ → ℚ) (store : RagStore)
    (queryEmbedding : Option (List ℚ)) (ragId query : String) (topK : Nat)
    (intent : RagIntent) (targetDocumentNames : List String)
    (hasPublicationDocs hasThesisDocs : Bool) : List RagChunk :=
  capChunksPerDocument (mergeUniqueChunks (mixedCombined0 penalty sqrtQ store
    queryEmbedding ragId query topK intent targetDocumentNames
    hasPublicationDocs hasThesisDocs)) 2

def mixedBackfill (penalty : ℚ) (sqrtQ : ℚ → ℚ) (store : RagStore)
    (queryEmbedding : Option (List ℚ)) (ragId query : String) (topK : Nat) :
    List RagChunk :=
  retrieveRelevantChunks penalty sqrtQ store queryEmbedding
    { ragId := ragId, query := query, topK := some (topK * 2),
      includeSourceRoles := [RagSourceRole.publication, RagSourceRole.thesis],
      excludeRedundant := some false, maxChunksPerDocument := some 2 }

def mixedCombined (penalty : ℚ) (sqrtQ : ℚ → ℚ) (store : RagStore)
    (queryEmbedding : Option (List ℚ)) (ragId query : String) (topK : Nat)
    (intent : RagIntent) (targetDocumentNames : List String)
    (hasPublicationDocs hasThesisDocs : Bool) : List RagChunk :=
  let combined1 := mixedCombined1 penalty sqrtQ store queryEmbedding ragId query
    topK intent targetDocumentNames hasPublicationDocs hasThesisDocs
  if combined1.length < topK then
    capChunksPerDocument (mergeUniqueChunks
      (combined1 ++ mixedBackfill penalty sqrtQ store queryEmbedding ragId query topK)) 2
  else combined1

def mixedFallback (penalty : ℚ) (sqrtQ : ℚ → ℚ) (store : RagStore)
    (queryEmbedding : Option (List ℚ)) (ragId query : String) (topK : Nat) :
    List RagChunk :=
  retrieveRelevantChunks penalty sqrtQ store queryEmbedding
    { ragId := ragId, query := query, topK := some topK,
      excludeRedundant := some false }

def mixedRetrieve (penalty : ℚ) (sqrtQ : ℚ → ℚ) (store : RagStore)
    (queryEmbedding : Option (List ℚ)) (ragId query : String) (topK : Nat)
    (intent : RagIntent) (mentionedDocuments : List RagDocument)
    (targetDocumentNames : List String) (hasPublicationDocs hasThesisDocs : Bool) :
    IntentContext :=
  let finalChunks := (mixedCombined penalty sqrtQ store queryEmbedding ragId
    query topK intent targetDocumentNames hasPublicationDocs hasThesisDocs).take topK
  if finalChunks ≠ [] then
    { intent := intent, chunks := finalChunks,
      mentionedDocuments := mentionedDocuments,
      targetDocumentNames := targetDocumentNames,
      retrievalNotes := ["mixed retrieval"] }
  else
    { intent := intent,
      chunks := mixedFallback penalty sqrtQ store queryEmbedding ragId query topK,
      mentionedDocuments := mentionedDocuments,
      targetDocumentNames := targetDocumentNames,
      retrievalNotes := ["fallback=unfiltered"] }

/-- retrieveIntentContext: classify, then run the strict paper_specific
branch, the paper_compare seeded branch, or the mixed path. -/
def retrieveIntentContext (penalty : ℚ) (sqrtQ : ℚ → ℚ) (store : RagStore)
    (queryEmbedding : Option (List ℚ)) (ragId query : String) (topK0 : Nat) :
    IntentContext :=
  let topK := max 1 topK0
  let documents := listRagDocuments store ragId
  let mentionedDocuments := findMentionedDocuments query documents
  let intent := detectIntent query mentionedDocuments
  let publicationTargets := (mentionedDocuments.filter
    fun doc => decide (doc.sourceRole = RagSourceRole.publication)).take 4
  let targetDocumentNames := publicationTargets.map fun doc => doc.fileName
  let hasPublicationDocs := documents.any
    fun doc => decide (doc.sourceRole = RagSourceRole.publication)
  let hasThesisDocs := documents.any
    fun doc => decide (doc.sourceRole = RagSourceRole.thesis)
  if intent = RagIntent.paper_specific ∧ targetDocumentNames ≠ [] then
    let targetName := targetDocumentNames.headD ""
    let strictChunks := retrieveRelevantChunks penalty sqrtQ store queryEmbedding
      { ragId := ragId, query := query, topK := some (max 2 topK),
        includeDocumentNames := [targetName],
        includeSourceRoles := [RagSourceRole.publication],
        excludeRedundant := some true,
        maxChunksPerDocument := some (max 2 (min 4 topK)) }
    if strictChunks ≠ [] then
      { intent := intent, chunks := strictChunks.take (max 2 topK),
        mentionedDocuments := mentionedDocuments,
        targetDocumentNames := [targetName],
        retrievalNotes := ["paper_specific hard filter applied: " ++ targetName] }
    else
      { intent := intent, chunks := [],
        mentionedDocuments := mentionedDocuments,
        targetDocumentNames := [targetName],
        retrievalNotes := ["paper_specific hard filter had no results for " ++ targetName] }
  else if intent = RagIntent.paper_compare ∧ targetDocumentNames ≠ [] then
    let seededChunks := targetDocumentNames.foldl
      (fun acc documentName =>
        let seed := retrieveRelevantChunks penalty sqrtQ store queryEmbedding
          { ragId := ragId, query := query, topK := some 1,
            includeDocumentNames := [documentName],
            includeSourceRoles := [RagSourceRole.publication],
            excludeRedundant := some true, maxChunksPerDocument := some 1 }
        match seed with
        | [] => acc
        | s :: _ => acc ++ [s])
      []
    let additional := retrieveRelevantChunks penalty sqrtQ store queryEmbedding
      { ragId := ragId, query := query,
        topK := some (max topK (topK - seededChunks.length)),
        includeDocumentNames := targetDocumentNames,
        includeSourceRoles := [RagSourceRole.publication],
        excludeRedundant := some true, maxChunksPerDocument := some 2 }
    let merged := (capChunksPerDocument
      (mergeUniqueChunks (seededChunks ++ additional)) 2).take topK
    if merged ≠ [] then
      { intent := intent, chunks := merged,
        mentionedDocuments := mentionedDocuments,
        targetDocumentNames := targetDocumentNames,
        retrievalNotes := ["paper_compare targeted papers"] }
    else
      mixedRetrieve penalty sqrtQ store queryEmbedding ragId query topK intent
        mentionedDocuments targetDocumentNames hasPublicationDocs hasThesisDocs
  else
    mixedRetrieve penalty sqrtQ store queryEmbedding ragId query topK intent
      mentionedDocuments targetDocumentNames hasPublicationDocs hasThesisDocs

/-! ## Canonical publication catalog (src/lib/config/publications.ts) -/

structure CanonicalPublication where
  title : String
  venue : String
  year : String
  aliases : List String
deriving DecidableEq, Repr

def CANONICAL_PUBLICATIONS : List CanonicalPublication :=
  [{ title := "Improved Cross-Dataset Facial Expression Recognition by Handling Data Imbalance and Feature Confusion",
     venue := "ECCVW", year := "2022", aliases := ["difc", "DIFC_ECCVW_2022.pdf"] },
   { title := "A Simple Signal for Domain Shift",
     venue := "ICCVW", year := "2023", aliases := ["dss", "DSS_ICCVW_2023.pdf"] },
   { title := "PhISH-Net: Physics Inspired System for High Resolution Underwater Image Enhancement",
     venue := "WACV", year := "2024",
     aliases := ["phishnet", "PhishNet_WACV_2024.pdf", "phish-net"] },
   { title := "Effectiveness of Vision Language Models for Open-world Single Image Test Time Adaptation",
     venue := "TMLR", year := "2025", aliases := ["rosita", "ROSITA_TMLR_2025.pdf"] },
   { title := "SANTA: Source Anchoring Network and Target Alignment for Continual Test Time Adaptation",
     venue := "TMLR", year := "2023", aliases := ["santa", "SANTA_TMLR_2023.pdf"] },
   { title := "Similar Class Style Augmentation for Efficient Cross-Domain Few-Shot Learning",
     venue := "CVPRW", year := "2023", aliases := ["ssabns", "SSABNS_CVPRW_2023.pdf"] },
   { title := "Segmentation Assisted Incremental Test Time Adaptation in an Open World",
     venue := "BMVC", year := "2025", aliases := ["segassist", "SegAssist_BMVC_2025.pdf"] },
   { title := "pSTarC: Pseudo Source Guided Target Clustering for Fully Test-Time Adaptation",
     venue := "WACV", year := "2024", aliases := ["pstarc", "pSTarC_WACV_2024.pdf"] },
   { title := "JumpStyle: A Framework for Data-Efficient Online Adaptation",
     venue := "ICLRW", year := "2023", aliases := ["jumpstyle"] }]

/-- normalizeCatalogText applies the same normalization as normalizeMatchText. -/
def normalizeCatalogText (s : String) : String := normalizeMatchText s

def publicationAliases (pub : CanonicalPublication) : List String :=
  ((pub.title :: pub.aliases).map normalizeCatalogText).filter fun a => a ≠ ""

def resolveCanonicalPublicationFromCandidates (candidates : List String) :
    Option CanonicalPublication :=
  let normalizedCandidates := (candidates.map normalizeCatalogText).filter fun c => c ≠ ""
  if normalizedCandidates.isEmpty then none
  else
    normalizedCandidates.findSome? fun candidate =>
      CANONICAL_PUBLICATIONS.findSome? fun publication =>
        if (publicationAliases publication).any fun a =>
            decide (candidate = a) ||
            (decide (6 ≤ a.length) && hasSubstr a.toList candidate.toList) ||
            (decide (6 ≤ candidate.length) && hasSubstr candidate.toList a.toList)
        then some publication else none

/-! ## Evidence contract enforcer (src/lib/server/agentRuntime.ts) -/

inductive EvidenceSourceLabel | paper | thesis | thesisRedundant | web | source
deriving DecidableEq, Repr

def sourceLabelStr : EvidenceSourceLabel → String
  | .paper => "PAPER"
  | .thesis => "THESIS"
  | .thesisRedundant => "THESIS-REDUNDANT"
  | .web => "WEB"
  | .source => "SOURCE"

/-- chunkSourceLabel composed with asEvidenceSourceLabel. -/
def chunkSourceLabel (c : RagChunk) : EvidenceSourceLabel :=
  if c.sourceRole = RagSourceRole.publication then .paper
  else if c.sourceRole = RagSourceRole.thesis ∧ c.isRedundant ∧ c.redundantOf.isSome then
    .thesisRedundant
  else if c.sourceRole = RagSourceRole.thesis then .thesis
  else if c.sourceRole = RagSourceRole.web then .web
  else .source

def markerPrefixForSource : EvidenceSourceLabel → String
  | .paper => "P"
  | .thesis => "T"
  | .thesisRedundant => "TR"
  | .web => "W"
  | .source => "S"

/-- JavaScript || chain over strings (empty string is falsy); the last item
is returned when everything is falsy. -/
def jsOrChain : List String → String
  | [] => ""
  | [x] => x
  | x :: rest => if x = "" then jsOrChain rest else x

/-- documentsById lookup: the JS Map construction keeps the last document
for a duplicated id, so the reversed list is searched first-match. -/
def docById (documents : List RagDocument) (id : String) : Option RagDocument :=
  documents.reverse.find? fun d => decide (d.id = id)

def metaStr (doc : Option RagDocument) (f : RagDocumentMetadata → Option String) : String :=
  ((doc.bind fun d => d.metadata).bind f).getD ""

structure CitationFields where
  sourceName : String
  title : String
  venue : String
  year : String
deriving DecidableEq, Repr

def resolveChunkCitationFields (chunk : RagChunk) (sourceLabel : EvidenceSourceLabel)
    (documents : List RagDocument) : CitationFields :=
  let sourceDoc := docById documents chunk.documentId
  let sourceName := jsOrChain [(sourceDoc.map fun d => d.fileName).getD "", chunk.sourceName]
  if sourceLabel = EvidenceSourceLabel.paper then
    let canonical := resolveCanonicalPublicationFromCandidates
      [metaStr sourceDoc (fun m => m.title),
       metaStr sourceDoc (fun m => m.canonicalCitation),
       (sourceDoc.map fun d => d.fileName).getD "",
       chunk.sourceName,
       chunk.documentTitle.getD "",
       chunk.paperKey.getD ""]
    { sourceName := sourceName,
      title := jsOrChain [(canonical.map fun p => p.title).getD "",
        metaStr sourceDoc (fun m => m.title), chunk.documentTitle.getD "",
        chunk.sourceName],
      venue := jsOrChain [(canonical.map fun p => p.venue).getD "",
        metaStr sourceDoc (fun m => m.venue), "N/A"],
      year := jsOrChain [(canonical.map fun p => p.year).getD "",
        metaStr sourceDoc (fun m => m.year), "N/A"] }
  else if sourceLabel = EvidenceSourceLabel.thesis ∨
      sourceLabel = EvidenceSourceLabel.thesisRedundant then
    { sourceName := sourceName,
      title := jsOrChain [metaStr sourceDoc (fun m => m.title),
        chunk.documentTitle.getD "", chunk.sourceName],
      venue := jsOrChain [metaStr sourceDoc (fun m => m.venue), "N/A"],
      year := jsOrChain [metaStr sourceDoc (fun m => m.year), "N/A"] }
  else if sourceLabel = EvidenceSourceLabel.web then
    { sourceName := sourceName,
      title := jsOrChain [metaStr sourceDoc (fun m => m.title),
        chunk.documentTitle.getD "", chunk.sourceName],
      venue := "WEB",
      year := jsOrChain [metaStr sourceDoc (fun m => m.year), "N/A"] }
  else
    { sourceName := sourceName,
      title := jsOrChain [metaStr sourceDoc (fun m => m.title),
        chunk.documentTitle.getD "", chunk.sourceName],
      venue := jsOrChain [metaStr sourceDoc (fun m => m.venue), "N/A"],
      year := jsOrChain [metaStr sourceDoc (fun m => m.year), "N/A"] }

def digitChar (n : Nat) : Char := Char.ofNat (48 + n)

/-- Decimal digit list of a natural number (fuelled division loop; fuel n+1
always suffices). Models the template-literal number rendering. -/
def natDigitsAux : Nat → Nat → List Char
  | 0, _ => []
  | fuel + 1, n => if n < 10 then [digitChar n] else natDigitsAux fuel (n / 10) ++ [digitChar (n % 10)]

def natDigits (n : Nat) : List Char := natDigitsAux (n + 1) n

def natToStr (n : Nat) : String := String.mk (natDigits n)

structure EvidenceReference where
  marker : String
  sourceLabel : EvidenceSourceLabel
  sourceName : String
  title : String
  venue : String
  year : String
  chunkId : String
deriving DecidableEq, Repr

/-- buildEvidenceReferences: sequential per-prefix numbering in retrieval
order; the per-prefix counter map is recovered by recounting in the
accumulated reference list. -/
def buildEvidenceReferences (chunks : List RagChunk) (documents : List RagDocument) :
    List EvidenceReference :=
  chunks.foldl
    (fun refs chunk =>
      let sourceLabel := chunkSourceLabel chunk
      let pfx := markerPrefixForSource sourceLabel
      let current := (refs.filter
        fun r => decide (markerPrefixForSource r.sourceLabel = pfx)).length
      let marker := pfx ++ natToStr (current + 1)
      let resolved := resolveChunkCitationFields chunk sourceLabel documents
      refs ++ [{ marker := marker, sourceLabel := sourceLabel,
                 sourceName := resolved.sourceName, title := resolved.title,
                 venue := resolved.venue, year := resolved.year,
                 chunkId := chunk.id }])
    []

/-- JavaScript Array.prototype.join(sep). -/
def joinSep (sep : String) : List String → String
  | [] => ""
  | a :: as => as.foldl (fun acc b => acc ++ sep ++ b) a

def buildEvidenceMarkdownBlock (refs : List EvidenceReference) : String :=
  if refs.isEmpty then ""
  else
    let lines := refs.map fun ref =>
      "- [" ++ ref.marker ++ "] " ++ sourceLabelStr ref.sourceLabel ++ " | " ++
        ref.title ++ " | venue: " ++ ref.venue ++ " | year: " ++ ref.year ++
        " | chunk: " ++ ref.chunkId
    joinSep "\n" ("### Evidence" :: lines)

structure CitationObject where
  title : String
  venue : String
  year : String
deriving DecidableEq, Repr

def dedupeCitationObjectsAux : List String → List CitationObject →
    List EvidenceReference → List CitationObject
  | _, acc, [] => acc
  | seen, acc, ref :: rest =>
    let key := sourceLabelStr ref.sourceLabel ++ "::" ++ ref.title ++ "::" ++
      ref.year ++ "::" ++ ref.venue
    if key ∈ seen then dedupeCitationObjectsAux seen acc rest
    else
      let acc' := acc ++ [{ title := ref.title, venue := ref.venue, year := ref.year }]
      if 8 ≤ acc'.length then acc'
      else dedupeCitationObjectsAux (key :: seen) acc' rest

def dedupeCitationObjects (refs : List EvidenceReference) : List CitationObject :=
  dedupeCitationObjectsAux [] [] refs

/-! The quantitative-signal regex
\b\d+(\.\d+)?\s*(%|percent|points|x)?\b is modelled as an existential
search over match positions and over the backtracking choices of each
quantifier; .test is true iff some choice yields a match. -/

def fracOptions (lastC : Char) (rest : List Char) : List (Char × List Char) :=
  (lastC, rest) ::
    (match rest with
     | '.' :: rest' =>
       (List.range (rest'.takeWhile fun c => c.isDigit).length).map
         fun i => (rest'.getD i '0', rest'.drop (i + 1))
     | _ => [])

def wsOptions (lastC : Char) (rest : List Char) : List (Char × List Char) :=
  (lastC, rest) ::
    (List.range (rest.takeWhile isWs).length).map
      fun i => (rest.getD i ' ', rest.drop (i + 1))

def unitOptions (lastC : Char) (rest : List Char) : List (Char × List Char) :=
  (lastC, rest) ::
    ((if rest.head? = some '%' then [('%', rest.drop 1)] else []) ++
     (if "percent".toList.isPrefixOf rest then [('t', rest.drop 7)] else []) ++
     (if "points".toList.isPrefixOf rest then [('s', rest.drop 6)] else []) ++
     (if rest.head? = some 'x' then [('x', rest.drop 1)] else []))

/-- Word boundary after the last consumed character. -/
def boundaryOk (lastC : Char) (rest : List Char) : Bool :=
  match rest.head? with
  | none => isWordChar lastC
  | some n => isWordChar lastC != isWordChar n

def quantMatchFrom (prev : Option Char) (cs : List Char) : Bool :=
  match cs with
  | [] => false
  | c :: _ =>
    c.isDigit &&
    (match prev with
     | none => true
     | some p => !isWordChar p) &&
    ((List.range (cs.takeWhile fun ch => ch.isDigit).length).any fun i =>
      (fracOptions (cs.getD i '0') (cs.drop (i + 1))).any fun fo =>
        (wsOptions fo.1 fo.2).any fun wo =>
          (unitOptions wo.1 wo.2).any fun uo =>
            boundaryOk uo.1 uo.2)

def quantScan : Option Char → List Char → Bool
  | _, [] => false
  | prev, c :: rest => quantMatchFrom prev (c :: rest) || quantScan (some c) rest

def jsTestQuantRegex (s : String) : Bool := quantScan none s.toList

def hasQuantitativeSignals (text : String) : Bool :=
  let normalized := normalizeMatchText text
  jsTestQuantRegex text ||
    QUANTITATIVE_SIGNAL_TERMS.any fun term => hasSubstr term.toList normalized.toList

def SECTION_MARKERS : List String :=
  ["\nPrimary evidence:", "\n### Evidence Notes", "\n### Evidence",
   "\nEvidence Notes\n", "\nEvidence\n", "\nCitations\n", "\nReferences\n"]

def firstIndexOfSub (pat : List Char) : List Char → Option Nat
  | [] => if pat.isEmpty then some 0 else none
  | c :: rest =>
    if pat.isPrefixOf (c :: rest) then some 0
    else (firstIndexOfSub pat rest).map fun i => i + 1

def stripModelProvidedEvidenceSections (text : String) : String :=
  let cs := text.toList
  let cut := SECTION_MARKERS.foldl
    (fun cutIndex m =>
      match firstIndexOfSub m.toList cs with
      | some idx =>
        match cutIndex with
        | none => some idx
        | some cur => if idx < cur then some idx else cutIndex
      | none => cutIndex)
    none
  match cut with
  | none => String.mk (jsTrim cs)
  | some idx => String.mk (jsTrim (cs.take idx))

/-! The citation-marker regex \[(TR\d+|P\d+|T\d+|W\d+|S\d+)\] and the global
replace/match built on it, as a left-to-right scanner: at each '[', try the
alternatives in order (prefix, then one-or-more digits greedily, then ']');
on success the whole bracketed marker is consumed, otherwise the '[' is
ordinary text. -/

def tryMarkerAlt (pfx : List Char) (cs : List Char) : Option (List Char × List Char) :=
  if pfx.isPrefixOf cs then
    let afterP := cs.drop pfx.length
    let ds := afterP.takeWhile fun c => c.isDigit
    if ds.isEmpty then none
    else
      match afterP.drop ds.length with
      | ']' :: rest => some (pfx ++ ds, rest)
      | _ => none
  else none

def tryMarker (cs : List Char) : Option (List Char × List Char) :=
  match cs with
  | '[' :: rest =>
    ((((tryMarkerAlt ['T', 'R'] rest).orElse fun _ =>
        tryMarkerAlt ['P'] rest).orElse fun _ =>
        tryMarkerAlt ['T'] rest).orElse fun _ =>
        tryMarkerAlt ['W'] rest).orElse fun _ =>
        tryMarkerAlt ['S'] rest
  | _ => none

inductive MarkerToken
  | plain (c : Char)
  | marker (m : List Char)
deriving DecidableEq, Repr

def scanMarkersAux : Nat → List Char → List MarkerToken
  | 0, _ => []
  | _, [] => []
  | fuel + 1, c :: rest =>
    if c = '[' then
      match tryMarker (c :: rest) with
      | some (m, rest') => MarkerToken.marker m :: scanMarkersAux fuel rest'
      | none => MarkerToken.plain c :: scanMarkersAux fuel rest
    else MarkerToken.plain c :: scanMarkersAux fuel rest

def scanMarkers (cs : List Char) : List MarkerToken := scanMarkersAux cs.length cs

def renderTokens (valid : List String) : List MarkerToken → List Char
  | [] => []
  | MarkerToken.plain c :: ts => c :: renderTokens valid ts
  | MarkerToken.marker m :: ts =>
    if String.mk m ∈ valid then '[' :: (m ++ (']' :: renderTokens valid ts))
    else renderTokens valid ts

/-- text.replace(markerRegex, m => valid.has(m) ? m : ''). -/
def stripUnknownMarkers (text : String) (validMarkers : List String) : String :=
  String.mk (renderTokens validMarkers (scanMarkers text.toList))

def markerMatches (cs : List Char) : List String :=
  (scanMarkers cs).filterMap fun t =>
    match t with
    | MarkerToken.marker m => some (String.mk m)
    | MarkerToken.plain _ => none

def countValidMarkersInText (text : String) (validMarkers : List String) : Nat :=
  ((markerMatches text.toList).filter fun m => decide (m ∈ validMarkers)).length

structure EnforceResult where
  responseText : String
  citations : List CitationObject
deriving DecidableEq, Repr

def enforceCitationContract (query : String) (intentContext : IntentContext)
    (responseText0 : String) (refs : List EvidenceReference) : EnforceResult :=
  let responseText1 := String.mk (jsTrim responseText0.toList)
  let responseText2 := stripModelProvidedEvidenceSections responseText1
  let validMarkers := refs.map fun r => r.marker
  let responseText3 :=
    String.mk (jsTrim (stripUnknownMarkers responseText2 validMarkers).toList)
  let paperRefs := refs.filter fun r => decide (r.sourceLabel = EvidenceSourceLabel.paper)
  let thesisRefs := refs.filter fun r => decide (r.sourceLabel = EvidenceSourceLabel.thesis)
  let thesisRedundantRefs := refs.filter
    fun r => decide (r.sourceLabel = EvidenceSourceLabel.thesisRedundant)
  let hasQuantitativeClaim :=
    hasQuantitativeSignals query || hasQuantitativeSignals responseText3
  let isPaperSpecificTarget :=
    intentContext.intent = RagIntent.paper_specific ∧
      intentContext.targetDocumentNames ≠ []
  let complianceNotes : List String :=
    (if isPaperSpecificTarget then
      ["Evidence is restricted to the target paper: " ++
        intentContext.targetDocumentNames.headD "" ++ "."]
     else []) ++
    (if hasQuantitativeClaim ∧ paperRefs = [] then
      (if isPaperSpecificTarget then
        ["Requested quantitative result was not found in retrieved context from the target paper."]
       else
        ["Publication-backed quantitative evidence was not found in current retrieved context."])
     else []) ++
    (if thesisRedundantRefs ≠ [] ∧ paperRefs = [] then
      ["Only thesis-redundant evidence was available for some claims; treat those claims as lower confidence."]
     else []) ++
    (if paperRefs ≠ [] ∧ (thesisRefs ≠ [] ∨ thesisRedundantRefs ≠ []) then
      ["When thesis framing differs from paper wording, publication evidence is treated as canonical for factual details."]
     else [])
  let markerCount := countValidMarkersInText responseText3 validMarkers
  let prioritizedMarkers := joinSep " "
    (((paperRefs ++ thesisRefs ++ thesisRedundantRefs ++
        refs.filter fun r =>
          decide (r.sourceLabel = EvidenceSourceLabel.web ∨
            r.sourceLabel = EvidenceSourceLabel.source)).take 4).map
      fun r => "[" ++ r.marker ++ "]")
  let responseText4 :=
    if refs ≠ [] ∧ markerCount = 0 ∧ prioritizedMarkers ≠ "" then
      String.mk (jsTrim (responseText3 ++ "\n\nPrimary evidence: " ++
        prioritizedMarkers).toList)
    else responseText3
  let responseText5 :=
    if complianceNotes ≠ [] then
      let noteBlock := joinSep "\n"
        ("### Evidence Notes" :: complianceNotes.map fun note => "- " ++ note)
      String.mk (jsTrim (responseText4 ++ "\n\n" ++ noteBlock).toList)
    else responseText4
  let evidenceBlock := buildEvidenceMarkdownBlock refs
  let responseText6 :=
    if evidenceBlock ≠ "" then
      String.mk (jsTrim (responseText5 ++ "\n\n" ++ evidenceBlock).toList)
    else responseText5
  { responseText := responseText6, citations := dedupeCitationObjects refs }

/-- The valid prefix+number marker forms of the stripping regex. -/
def validMarkerFormB (m : List Char) : Bool :=
  let alt := fun (pfx : List Char) =>
    pfx.isPrefixOf m &&
      (let ds := m.drop pfx.length
       !ds.isEmpty && ds.all fun c => c.isDigit)
  alt ['T', 'R'] || alt ['P'] || alt ['T'] || alt ['W'] || alt ['S']

/-- text contains the bracketed marker m as a substring. -/
def ContainsMarker (text : String) (m : List Char) : Prop :=
  SubstrOf ('[' :: (m ++ [']'])) text.toList

/-- Re-emission of a token stream without any filtering. -/
def flattenTokens : List MarkerToken → List Char
  | [] => []
  | MarkerToken.plain c :: ts => c :: flattenTokens ts
  | MarkerToken.marker m :: ts => '[' :: (m ++ (']' :: flattenTokens ts))

/-- Every valid prefix+number marker form occurring bracketed as a substring
belongs to the valid marker list. -/
def MarkerClean (valid : List String) (cs : List Char) : Prop :=
  ∀ X : List Char, validMarkerFormB X = true →
    SubstrOf ('[' :: (X ++ [']'])) cs → String.mk X ∈ valid

/-! ## Concrete instances used by witnesses and counterexamples -/

/-- A chunk with every optional field absent, used as the base of concrete
test chunks. -/
def baseChunk : RagChunk :=
  { id := "", ragId := "", documentId := "", text := "", sourceName := "",
    chunkIndex := 0, sourceRole := RagSourceRole.other }

def c3PubChunk : RagChunk :=
  { baseChunk with
    id := "p1", ragId := "ns", documentId := "d1",
    text := "alpha beta gamma delta epsilon zeta eta theta",
    sourceName := "a.pdf", sourceRole := RagSourceRole.publication }

def c3ThesisChunk : RagChunk :=
  { baseChunk with
    id := "t1", ragId := "ns", documentId := "d2",
    text := "alpha beta gamma delta epsilon zeta eta theta.",
    sourceName := "t.pdf", sourceRole := RagSourceRole.thesis }

def c3Store : RagStore := { documents := [], chunks := [c3PubChunk, c3ThesisChunk] }

def c4PubChunk : RagChunk :=
  { baseChunk with
    id := "p1", ragId := "ns", documentId := "d1",
    text := "shared text", sourceName := "a.pdf",
    sourceRole := RagSourceRole.publication }

def c4ThesisChunk : RagChunk :=
  { baseChunk with
    id := "t1", ragId := "ns", documentId := "d2",
    text := "shared text", sourceName := "t.pdf",
    sourceRole := RagSourceRole.thesis }

def c4Store : RagStore := { documents := [], chunks := [c4PubChunk, c4ThesisChunk] }

def c10WebChunk : RagChunk :=
  { baseChunk with
    id := "w1", ragId := "ns", documentId := "d3",
    text := "web text", sourceName := "w.html", sourceRole := RagSourceRole.web }

def c10PubChunk : RagChunk :=
  { baseChunk with
    id := "p1", ragId := "ns", documentId := "d1",
    text := "pub text", sourceName := "a.pdf",
    sourceRole := RagSourceRole.publication }

def c10ThesisChunk : RagChunk :=
  { baseChunk with
    id := "t1", ragId := "ns", documentId := "d2",
    text := "thesis text", sourceName := "t.pdf",
    sourceRole := RagSourceRole.thesis }

def c10Store : RagStore :=
  { documents := [], chunks := [c10PubChunk, c10ThesisChunk, c10WebChunk] }

/-- Number of chunks of the list owned by the given document. -/
def docCount (d : String) (l : List RagChunk) : Nat :=
  (l.filter fun c => decide (c.documentId = d)).length

def baseDoc : RagDocument :=
  { id := "", ragId := "", fileName := "", fileType := RagFileType.pdf,
    status := RagDocStatus.active, uploadedAt := "", sourceType := RagSourceType.upload,
    documentCount := 0, sourceRole := RagSourceRole.other }

def c6Doc : RagDocument :=
  { baseDoc with
    id := "d1", ragId := "ns", fileName := "transformers.pdf",
    sourceRole := RagSourceRole.publication }

def c6ChunkA : RagChunk :=
  { baseChunk with
    id := "a", ragId := "ns", documentId := "d1",
    text := "transformers results alpha", sourceName := "transformers.pdf",
    sourceRole := RagSourceRole.publication }

def c6ChunkB : RagChunk :=
  { baseChunk with
    id := "b", ragId := "ns", documentId := "d1",
    text := "transformers results beta", sourceName := "transformers.pdf",
    chunkIndex := 1, sourceRole := RagSourceRole.publication }

def c6Store : RagStore := { documents := [c6Doc], chunks := [c6ChunkA, c6ChunkB] }

def c1Doc : RagDocument :=
  { baseDoc with
    id := "d1", ragId := "ns", fileName := "segmenter.pdf",
    sourceRole := RagSourceRole.publication }

def c1ChunkA : RagChunk :=
  { baseChunk with
    id := "a", ragId := "ns", documentId := "d1",
    text := "segmenter results alpha", sourceName := "segmenter.pdf",
    sourceRole := RagSourceRole.publication }

def c1Store : RagStore := { documents := [c1Doc], chunks := [c1ChunkA] }

def c2Doc : RagDocument :=
  { baseDoc with
    id := "d1", ragId := "ns", fileName := "site.html",
    fileType := RagFileType.txt, sourceType := RagSourceType.crawl,
    sourceRole := RagSourceRole.web }

def c2Chunk (cid : String) (idx : Nat) : RagChunk :=
  { baseChunk with
    id := cid, ragId := "ns", documentId := "d1",
    text := "crawl content " ++ cid, sourceName := "site.html",
    chunkIndex := idx, sourceRole := RagSourceRole.web }

def c2Store : RagStore :=
  { documents := [c2Doc], chunks := [c2Chunk "x" 0, c2Chunk "y" 1, c2Chunk "z" 2] }

def c5Ctx : IntentContext :=
  { intent := RagIntent.technical_cross_paper, chunks := [],
    mentionedDocuments := [], targetDocumentNames := [],
    retrievalNotes := [] }

def c5Ref : EvidenceReference :=
  { marker := "P1", sourceLabel := EvidenceSourceLabel.paper,
    sourceName := "a.pdf", title := "Alpha", venue := "VENUE", year := "2024",
    chunkId := "c1" }

/-! # Theorems -/

/-! ## Generic helper lemmas -/

theorem toList_mk (l : List Char) : (String.mk l).toList = l := rfl

theorem dropWhile_head_not {α : Type} (p : α → Bool) (l : List α) {a : α}
    (h : (l.dropWhile p).head? = some a) : p a = false := by
  induction l with
  | nil => simp [List.dropWhile] at h
  | cons b t ih =>
    rw [List.dropWhile_cons] at h
    by_cases hb : p b = true
    · rw [if_pos hb] at h; exact ih h
    · rw [if_neg hb] at h
      simp only [List.head?_cons, Option.some.injEq] at h
      rw [← h]
      simpa using hb

theorem dropWhile_eq_self {α : Type} (p : α → Bool) (l : List α)
    (h : ∀ a, l.head? = some a → p a = false) : l.dropWhile p = l := by
  cases l with
  | nil => rfl
  | cons b t => rw [List.dropWhile_cons]; simp [h b rfl]

theorem headq_of_pfx {α : Type} {l₁ l₂ : List α} (h : l₁ <+: l₂)
    (hne : l₁ ≠ []) : l₂.head? = l₁.head? := by
  obtain ⟨t, rfl⟩ := h
  cases l₁ with
  | nil => exact absurd rfl hne
  | cons a t' => rfl

theorem trimLeft_head_not (l : List Char) {a : Char}
    (h : (trimLeft l).head? = some a) : isWs a = false :=
  dropWhile_head_not isWs l h

theorem trimRight_pfx (l : List Char) : trimRight l <+: l := by
  have h : l.reverse.dropWhile isWs <:+ l.reverse := List.dropWhile_suffix isWs
  have h2 := List.reverse_prefix.2 h
  rw [List.reverse_reverse] at h2
  exact h2

theorem trimRight_head_eq (l : List Char) (hne : trimRight l ≠ []) :
    l.head? = (trimRight l).head? :=
  headq_of_pfx (trimRight_pfx l) hne

theorem trimRight_reverse_head_not (l : List Char) {a : Char}
    (h : (trimRight l).reverse.head? = some a) : isWs a = false := by
  rw [trimRight, List.reverse_reverse] at h
  exact dropWhile_head_not isWs l.reverse h

theorem trimLeft_eq_self (l : List Char)
    (h : ∀ a, l.head? = some a → isWs a = false) : trimLeft l = l :=
  dropWhile_eq_self isWs l h

theorem trimRight_eq_self (l : List Char)
    (h : ∀ a, l.reverse.head? = some a → isWs a = false) : trimRight l = l := by
  rw [trimRight, dropWhile_eq_self isWs l.reverse h, List.reverse_reverse]

theorem jsTrim_head_not (l : List Char) {a : Char}
    (h : (jsTrim l).head? = some a) : isWs a = false := by
  rw [jsTrim] at h
  rcases he : trimRight (trimLeft l) with _ | ⟨b, t⟩
  · rw [he] at h; simp at h
  · rw [he] at h
    have hne : trimRight (trimLeft l) ≠ [] := by simp [he]
    have := trimRight_head_eq (trimLeft l) hne
    rw [he] at this
    exact trimLeft_head_not l (by rw [this]; exact h)

theorem jsTrim_reverse_head_not (l : List Char) {a : Char}
    (h : (jsTrim l).reverse.head? = some a) : isWs a = false :=
  trimRight_reverse_head_not (trimLeft l) h

theorem jsTrim_idem (l : List Char) : jsTrim (jsTrim l) = jsTrim l := by
  have h1 : trimLeft (jsTrim l) = jsTrim l :=
    trimLeft_eq_self _ fun a ha => jsTrim_head_not l ha
  show trimRight (trimLeft (jsTrim l)) = jsTrim l
  rw [h1]
  exact trimRight_eq_self _ fun a ha => jsTrim_reverse_head_not l ha

/-! ## Chunker: claim C8 -/

theorem getLast?_cons_of_ne_nil {α : Type} (a : α) {l : List α} (h : l ≠ []) :
    (a :: l).getLast? = l.getLast? := by
  cases l with
  | nil => exact absurd rfl h
  | cons b t => exact List.getLast?_cons_cons

theorem chunkLoop_sound (len size overlap : Nat) (ho : overlap < size) :
    ∀ fuel start, len - start < fuel →
      ∃ ws, chunkLoop len size overlap fuel start = some ws ∧
        (start < len → ws ≠ [] ∧ (ws.getLast?).map Prod.snd = some len) ∧
        (len ≤ start → ws = []) := by
  intro fuel
  induction fuel with
  | zero => intro start h; omega
  | succ n ih =>
    intro start h
    by_cases hs : start < len
    · by_cases he : len ≤ min (start + size) len
      · refine ⟨[(start, min (start + size) len)], ?_, ?_, ?_⟩
        · simp only [chunkLoop, if_pos hs, if_pos he]
        · intro _
          constructor
          · simp
          · have : min (start + size) len = len := by omega
            simp [this]
        · intro hle; omega
      · have hmin : min (start + size) len = start + size := by omega
        have hrec : len - (min (start + size) len - overlap) < n := by omega
        obtain ⟨ws', hws', hlt, _⟩ := ih (min (start + size) len - overlap) hrec
        have hlt' : min (start + size) len - overlap < len := by omega
        obtain ⟨hne', hlast'⟩ := hlt hlt'
        refine ⟨(start, min (start + size) len) :: ws', ?_, ?_, ?_⟩
        · simp only [chunkLoop, if_pos hs, if_neg he, hws']
        · intro _
          constructor
          · simp
          · rw [getLast?_cons_of_ne_nil _ hne']; exact hlast'
        · intro hle; omega
    · refine ⟨[], ?_, ?_, ?_⟩
      · simp only [chunkLoop, if_neg hs]
      · intro h'; omega
      · intro _; rfl

/-- C8: the claim as stated is false — with size 1 > 0 and overlap 1 ≥ 0 the
window start max(0, end − overlap) never advances on the two-character text
"ab", so the chunker loops forever (no amount of fuel completes the loop). -/
theorem C8_chunker_cex : ¬ chunkTerminates "ab" 1 1 := by
  have stuck : ∀ fuel, chunkLoop 2 1 1 fuel 0 = none := by
    intro fuel
    induction fuel with
    | zero => rfl
    | succ n ih =>
      have step : chunkLoop 2 1 1 (n + 1) 0 =
          (match chunkLoop 2 1 1 n 0 with
           | none => none
           | some ws => some ((0, 1) :: ws)) := rfl
      rw [step, ih]
  rintro ⟨fuel, h⟩
  have hn : chunkNormalize "ab" = ['a', 'b'] := rfl
  simp only [chunkTextFuel, hn] at h
  simp [stuck fuel] at h

/-- C8 (amended): for every text and size > 0, provided overlap < size (the
claim's arbitrary overlap ≥ 0 is exactly what the counterexample refutes:
with overlap ≥ size the loop does not advance), the chunker terminates —
normalized-length+1 iterations suffice — returning non-empty trimmed
strings; the window list is empty exactly on empty normalized text and
otherwise its final window ends at the end of the normalized text. -/
theorem C8_chunker_amended (text : String) (size overlap : Nat)
    (ho : overlap < size) :
    chunkTerminates text size overlap ∧
    ∃ chunks,
      chunkTextFuel ((chunkNormalize text).length + 1) text size overlap = some chunks ∧
      (∀ c ∈ chunks, c ≠ "" ∧ c.toList = jsTrim c.toList) ∧
      (chunkNormalize text = [] → chunks = []) ∧
      (chunkNormalize text ≠ [] →
        ∃ ws, chunkLoop (chunkNormalize text).length size overlap
            ((chunkNormalize text).length + 1) 0 = some ws ∧
          ws ≠ [] ∧ (ws.getLast?).map Prod.snd = some (chunkNormalize text).length ∧
          chunks = sliceChunks (chunkNormalize text) ws) := by
  by_cases hempty : chunkNormalize text = []
  · refine ⟨⟨1, ?_⟩, [], ?_, ?_, ?_, ?_⟩
    · rw [chunkTextFuel]; simp [hempty]
    · rw [chunkTextFuel]; simp [hempty]
    · intro c hc; simp at hc
    · intro _; rfl
    · intro h; exact absurd hempty h
  · obtain ⟨ws, hws, hlt, _⟩ :=
      chunkLoop_sound (chunkNormalize text).length size overlap ho
        ((chunkNormalize text).length + 1) 0 (by omega)
    have hpos : 0 < (chunkNormalize text).length :=
      List.length_pos.2 hempty
    obtain ⟨hne, hlast⟩ := hlt hpos
    have heval : chunkTextFuel ((chunkNormalize text).length + 1) text size overlap =
        some (sliceChunks (chunkNormalize text) ws) := by
      rw [chunkTextFuel]
      simp only [if_neg hempty, hws, Option.map_some']
    refine ⟨⟨(chunkNormalize text).length + 1, by rw [heval]; rfl⟩,
      sliceChunks (chunkNormalize text) ws, heval, ?_, ?_, ?_⟩
    · intro c hc
      rw [sliceChunks] at hc
      have hc' := List.mem_filter.1 hc
      obtain ⟨w, _, hw⟩ := List.mem_map.1 hc'.1
      refine ⟨by simpa using hc'.2, ?_⟩
      rw [← hw, toList_mk, jsTrim_idem]
    · intro h; exact absurd h hempty
    · intro _; exact ⟨ws, hws, hne, hlast, rfl⟩

/-- C8 witness: concrete instantiation at text "hello world", size 5,
overlap 2. -/
theorem C8_chunker_amended_w : chunkTerminates "hello world" 5 2 :=
  (C8_chunker_amended "hello world" 5 2 (by decide)).1

/-! ## Redundancy engine: structural lemmas -/

theorem effectiveHash_reset (c : RagChunk) :
    effectiveHash (resetChunk c) = effectiveHash c := rfl

theorem backfillHash_idem (c : RagChunk) :
    backfillHash (backfillHash c) = backfillHash c := rfl

/-- annotateCore either returns its input unchanged or marks it redundant
against some id with some score, leaving every other field alone. -/
theorem annotateCore_shape (cfg : DedupConfig) (sqrtQ : ℚ → ℚ)
    (pubs : List RagChunk) (t : RagChunk) :
    annotateCore cfg sqrtQ pubs t = t ∨
    ∃ mid ms, annotateCore cfg sqrtQ pubs t =
      { t with isRedundant := true, redundantOf := some mid,
               redundancyScore := some ms } := by
  unfold annotateCore
  by_cases hp : pubs.isEmpty = true
  · rw [if_pos hp]; exact Or.inl rfl
  · rw [if_neg hp]
    cases hfind : List.find? (fun p => decide (effectiveHash p = effectiveHash t)) pubs with
    | some em =>
      simp only [hfind]
      by_cases hnov : novelSentenceRatio t.text em.text < cfg.novelSentenceThreshold
      · rw [if_pos hnov]; exact Or.inr ⟨em.id, 1, rfl⟩
      · rw [if_neg hnov]; exact Or.inl rfl
    | none =>
      simp only [hfind]
      cases hscan : nearDupScan cfg sqrtQ t pubs with
      | none => simp only [hscan]; exact Or.inl trivial
      | some b =>
        obtain ⟨bm, bs⟩ := b
        simp only [hscan]
        by_cases hnov : cfg.novelSentenceThreshold ≤ novelSentenceRatio t.text bm.text
        · rw [if_pos hnov]; exact Or.inl rfl
        · rw [if_neg hnov]; exact Or.inr ⟨bm.id, bs, rfl⟩

theorem resetChunk_annotateCore (cfg : DedupConfig) (sqrtQ : ℚ → ℚ)
    (pubs : List RagChunk) (t0 : RagChunk) :
    resetChunk (annotateCore cfg sqrtQ pubs (resetChunk t0)) = resetChunk t0 := by
  obtain h | ⟨mid, ms, h⟩ := annotateCore_shape cfg sqrtQ pubs (resetChunk t0) <;>
    rw [h] <;> rfl

theorem annotateOne_idem (cfg : DedupConfig) (sqrtQ : ℚ → ℚ)
    (pubs : List RagChunk) (t0 : RagChunk) :
    annotateOne cfg sqrtQ pubs (annotateOne cfg sqrtQ pubs t0) =
      annotateOne cfg sqrtQ pubs t0 := by
  unfold annotateOne
  rw [resetChunk_annotateCore]

theorem annotateOne_base (cfg : DedupConfig) (sqrtQ : ℚ → ℚ)
    (pubs : List RagChunk) (t0 : RagChunk) :
    (annotateOne cfg sqrtQ pubs t0).id = t0.id ∧
    (annotateOne cfg sqrtQ pubs t0).ragId = t0.ragId ∧
    (annotateOne cfg sqrtQ pubs t0).documentId = t0.documentId ∧
    (annotateOne cfg sqrtQ pubs t0).text = t0.text ∧
    (annotateOne cfg sqrtQ pubs t0).embedding = t0.embedding ∧
    (annotateOne cfg sqrtQ pubs t0).sourceName = t0.sourceName ∧
    (annotateOne cfg sqrtQ pubs t0).chunkIndex = t0.chunkIndex ∧
    (annotateOne cfg sqrtQ pubs t0).sourceRole = t0.sourceRole ∧
    (annotateOne cfg sqrtQ pubs t0).paperKey = t0.paperKey ∧
    (annotateOne cfg sqrtQ pubs t0).documentTitle = t0.documentTitle ∧
    (annotateOne cfg sqrtQ pubs t0).headingPath = t0.headingPath ∧
    (annotateOne cfg sqrtQ pubs t0).pageStart = t0.pageStart ∧
    (annotateOne cfg sqrtQ pubs t0).pageEnd = t0.pageEnd ∧
    (annotateOne cfg sqrtQ pubs t0).textHash = some (effectiveHash t0) := by
  unfold annotateOne
  obtain h | ⟨mid, ms, h⟩ := annotateCore_shape cfg sqrtQ pubs (resetChunk t0) <;>
    rw [h] <;>
    exact ⟨rfl, rfl, rfl, rfl, rfl, rfl, rfl, rfl, rfl, rfl, rfl, rfl, rfl, rfl⟩

theorem pubOf_backfill (rid : String) (c : RagChunk) :
    pubOf rid (backfillHash c) = pubOf rid c := rfl

theorem thesisOf_backfill (rid : String) (c : RagChunk) :
    thesisOf rid (backfillHash c) = thesisOf rid c := rfl

theorem pubOf_annotateOne (cfg : DedupConfig) (sqrtQ : ℚ → ℚ)
    (pubs : List RagChunk) (rid : String) (t0 : RagChunk) :
    pubOf rid (annotateOne cfg sqrtQ pubs t0) = pubOf rid t0 := by
  have h := annotateOne_base cfg sqrtQ pubs t0
  simp [pubOf, h.2.1, h.2.2.2.2.2.2.2.1]

theorem thesisOf_annotateOne (cfg : DedupConfig) (sqrtQ : ℚ → ℚ)
    (pubs : List RagChunk) (rid : String) (t0 : RagChunk) :
    thesisOf rid (annotateOne cfg sqrtQ pubs t0) = thesisOf rid t0 := by
  have h := annotateOne_base cfg sqrtQ pubs t0
  simp [thesisOf, h.2.1, h.2.2.2.2.2.2.2.1]

theorem annotateStep_pub (cfg : DedupConfig) (sqrtQ : ℚ → ℚ) (rid : String)
    (pubs : List RagChunk) {c : RagChunk} (h : pubOf rid c = true) :
    annotateStep cfg sqrtQ rid pubs c = backfillHash c := by
  unfold annotateStep; rw [if_pos h]

theorem annotateStep_thesis (cfg : DedupConfig) (sqrtQ : ℚ → ℚ) (rid : String)
    (pubs : List RagChunk) {c : RagChunk} (hp : pubOf rid c = false)
    (ht : thesisOf rid c = true) :
    annotateStep cfg sqrtQ rid pubs c = annotateOne cfg sqrtQ pubs c := by
  unfold annotateStep; rw [hp, ht]; rfl

theorem annotateStep_other (cfg : DedupConfig) (sqrtQ : ℚ → ℚ) (rid : String)
    (pubs : List RagChunk) {c : RagChunk} (hp : pubOf rid c = false)
    (ht : thesisOf rid c = false) :
    annotateStep cfg sqrtQ rid pubs c = c := by
  unfold annotateStep; rw [hp, ht]; rfl

theorem pubOf_of_thesisOf {rid : String} {c : RagChunk}
    (h : thesisOf rid c = true) : pubOf rid c = false := by
  simp only [thesisOf, decide_eq_true_eq] at h
  simp [pubOf, h.2]

theorem thesisOf_of_pubOf {rid : String} {c : RagChunk}
    (h : pubOf rid c = true) : thesisOf rid c = false := by
  simp only [pubOf, decide_eq_true_eq] at h
  simp [thesisOf, h.2]

theorem pubOf_step (cfg : DedupConfig) (sqrtQ : ℚ → ℚ) (rid : String)
    (pubs : List RagChunk) (c : RagChunk) :
    pubOf rid (annotateStep cfg sqrtQ rid pubs c) = pubOf rid c := by
  unfold annotateStep
  by_cases hp : pubOf rid c = true
  · rw [if_pos hp, pubOf_backfill]
  · rw [if_neg hp]
    by_cases ht : thesisOf rid c = true
    · rw [if_pos ht, pubOf_annotateOne]
    · rw [if_neg ht]

theorem thesisOf_step (cfg : DedupConfig) (sqrtQ : ℚ → ℚ) (rid : String)
    (pubs : List RagChunk) (c : RagChunk) :
    thesisOf rid (annotateStep cfg sqrtQ rid pubs c) = thesisOf rid c := by
  unfold annotateStep
  by_cases hp : pubOf rid c = true
  · rw [if_pos hp, thesisOf_backfill]
  · rw [if_neg hp]
    by_cases ht : thesisOf rid c = true
    · rw [if_pos ht, thesisOf_annotateOne]
    · rw [if_neg ht]

theorem filter_map_of_inv {f : RagChunk → RagChunk} {p : RagChunk → Bool}
    (hp : ∀ c, p (f c) = p c) (l : List RagChunk) :
    (l.map f).filter p = (l.filter p).map f := by
  rw [List.filter_map]
  exact congrArg (List.map f) (List.filter_congr fun a _ => hp a)

theorem annotate_of_thesis_empty (cfg : DedupConfig) (sqrtQ : ℚ → ℚ)
    (store : RagStore) (rid : String)
    (h : store.chunks.filter (thesisOf rid) = []) :
    annotateThesisRedundancy cfg sqrtQ store rid = store := by
  unfold annotateThesisRedundancy
  simp [h]

theorem annotate_of_thesis_ne (cfg : DedupConfig) (sqrtQ : ℚ → ℚ)
    (store : RagStore) (rid : String)
    (h : store.chunks.filter (thesisOf rid) ≠ []) :
    annotateThesisRedundancy cfg sqrtQ store rid =
      { store with chunks := store.chunks.map (annotateStep cfg sqrtQ rid
          ((store.chunks.filter (pubOf rid)).map backfillHash)) } := by
  unfold annotateThesisRedundancy
  simp [List.isEmpty_eq_false.2 h]

/-- C9: annotateThesisRedundancy is idempotent — a second run on the
unchanged store produces exactly the same store (all isRedundant,
redundantOf, redundancyScore values identical), for every store, namespace,
configuration and square-root function. -/
theorem C9_annotate_idempotent (cfg : DedupConfig) (sqrtQ : ℚ → ℚ)
    (store : RagStore) (rid : String) :
    annotateThesisRedundancy cfg sqrtQ (annotateThesisRedundancy cfg sqrtQ store rid) rid =
      annotateThesisRedundancy cfg sqrtQ store rid := by
  by_cases h : store.chunks.filter (thesisOf rid) = []
  · rw [annotate_of_thesis_empty cfg sqrtQ store rid h,
      annotate_of_thesis_empty cfg sqrtQ store rid h]
  · have h1 := annotate_of_thesis_ne cfg sqrtQ store rid h
    have hchunks1 : (annotateThesisRedundancy cfg sqrtQ store rid).chunks =
        store.chunks.map (annotateStep cfg sqrtQ rid
          ((store.chunks.filter (pubOf rid)).map backfillHash)) := by rw [h1]
    have hthesis1 : (annotateThesisRedundancy cfg sqrtQ store rid).chunks.filter
        (thesisOf rid) ≠ [] := by
      rw [hchunks1, filter_map_of_inv (thesisOf_step cfg sqrtQ rid _)]
      simpa using h
    have hpubs1 : ((annotateThesisRedundancy cfg sqrtQ store rid).chunks.filter
        (pubOf rid)).map backfillHash =
        (store.chunks.filter (pubOf rid)).map backfillHash := by
      rw [hchunks1, filter_map_of_inv (pubOf_step cfg sqrtQ rid _), List.map_map]
      apply List.map_congr_left
      intro c hc
      have hcp : pubOf rid c = true := (List.mem_filter.1 hc).2
      show backfillHash (annotateStep cfg sqrtQ rid _ c) = backfillHash c
      rw [annotateStep_pub cfg sqrtQ rid _ hcp, backfillHash_idem]
    rw [annotate_of_thesis_ne cfg sqrtQ _ rid hthesis1, hpubs1, hchunks1, h1]
    simp only [List.map_map]
    congr 1
    apply List.map_congr_left
    intro c _
    set pubs0 := (store.chunks.filter (pubOf rid)).map backfillHash with hp0
    show annotateStep cfg sqrtQ rid pubs0 (annotateStep cfg sqrtQ rid pubs0 c) =
      annotateStep cfg sqrtQ rid pubs0 c
    by_cases hp : pubOf rid c = true
    · have hpB : pubOf rid (backfillHash c) = true := by
        rw [pubOf_backfill]; exact hp
      rw [annotateStep_pub cfg sqrtQ rid pubs0 hp,
        annotateStep_pub cfg sqrtQ rid pubs0 hpB, backfillHash_idem]
    · have hpc : pubOf rid c = false := by simpa using hp
      by_cases ht : thesisOf rid c = true
      · have hpA : pubOf rid (annotateOne cfg sqrtQ pubs0 c) = false := by
          rw [pubOf_annotateOne]; exact hpc
        have htA : thesisOf rid (annotateOne cfg sqrtQ pubs0 c) = true := by
          rw [thesisOf_annotateOne]; exact ht
        rw [annotateStep_thesis cfg sqrtQ rid pubs0 hpc ht,
          annotateStep_thesis cfg sqrtQ rid pubs0 hpA htA, annotateOne_idem]
      · have htc : thesisOf rid c = false := by simpa using ht
        rw [annotateStep_other cfg sqrtQ rid pubs0 hpc htc,
          annotateStep_other cfg sqrtQ rid pubs0 hpc htc]

/-- C10: frame property of the redundancy engine. The documents list is
unchanged; the chunk list keeps its length; chunks outside the namespace
and chunks of web/other role are returned verbatim; the namespace's
publication chunks change at most by backfilling textHash; its thesis
chunks keep every field except the redundancy triple and a backfilled
textHash; and the redundancy triple of every non-thesis-in-namespace chunk
is untouched. -/
theorem C10_annotate_frame (cfg : DedupConfig) (sqrtQ : ℚ → ℚ)
    (store : RagStore) (rid : String) :
    (annotateThesisRedundancy cfg sqrtQ store rid).documents = store.documents ∧
    (annotateThesisRedundancy cfg sqrtQ store rid).chunks.length = store.chunks.length ∧
    ∀ (i : Nat) (c : RagChunk), store.chunks[i]? = some c →
      (¬(c.ragId = rid ∧ (c.sourceRole = RagSourceRole.publication ∨
          c.sourceRole = RagSourceRole.thesis)) →
        (annotateThesisRedundancy cfg sqrtQ store rid).chunks[i]? = some c) ∧
      (c.ragId = rid → c.sourceRole = RagSourceRole.publication →
        ((annotateThesisRedundancy cfg sqrtQ store rid).chunks[i]? = some c ∨
          (annotateThesisRedundancy cfg sqrtQ store rid).chunks[i]? =
            some (backfillHash c))) ∧
      (c.ragId = rid → c.sourceRole = RagSourceRole.thesis →
        ∃ c' : RagChunk, (annotateThesisRedundancy cfg sqrtQ store rid).chunks[i]? = some c' ∧
          c'.id = c.id ∧ c'.ragId = c.ragId ∧ c'.documentId = c.documentId ∧
          c'.text = c.text ∧ c'.embedding = c.embedding ∧
          c'.sourceName = c.sourceName ∧ c'.chunkIndex = c.chunkIndex ∧
          c'.sourceRole = c.sourceRole ∧ c'.paperKey = c.paperKey ∧
          c'.documentTitle = c.documentTitle ∧ c'.headingPath = c.headingPath ∧
          c'.pageStart = c.pageStart ∧ c'.pageEnd = c.pageEnd ∧
          (c'.textHash = c.textHash ∨ c'.textHash = some (effectiveHash c))) ∧
      (¬(c.ragId = rid ∧ c.sourceRole = RagSourceRole.thesis) →
        ∃ c' : RagChunk, (annotateThesisRedundancy cfg sqrtQ store rid).chunks[i]? = some c' ∧
          c'.isRedundant = c.isRedundant ∧ c'.redundantOf = c.redundantOf ∧
          c'.redundancyScore = c.redundancyScore) := by
  by_cases hemp : store.chunks.filter (thesisOf rid) = []
  · rw [annotate_of_thesis_empty cfg sqrtQ store rid hemp]
    refine ⟨rfl, rfl, ?_⟩
    intro i c hc
    exact ⟨fun _ => hc, fun _ _ => Or.inl hc,
      fun _ _ => ⟨c, hc, rfl, rfl, rfl, rfl, rfl, rfl, rfl, rfl, rfl, rfl, rfl,
        rfl, rfl, Or.inl rfl⟩,
      fun _ => ⟨c, hc, rfl, rfl, rfl⟩⟩
  · have h1 := annotate_of_thesis_ne cfg sqrtQ store rid hemp
    set pubs0 := (store.chunks.filter (pubOf rid)).map backfillHash with hp0
    have hch : (annotateThesisRedundancy cfg sqrtQ store rid).chunks =
        store.chunks.map (annotateStep cfg sqrtQ rid pubs0) := by rw [h1]
    refine ⟨by rw [h1], by rw [hch, List.length_map], ?_⟩
    intro i c hc
    have hstep : (annotateThesisRedundancy cfg sqrtQ store rid).chunks[i]? =
        some (annotateStep cfg sqrtQ rid pubs0 c) := by
      rw [hch, List.getElem?_map, hc, Option.map_some']
    refine ⟨?_, ?_, ?_, ?_⟩
    · intro hcond
      have hpc : pubOf rid c = false := by
        simp only [pubOf, decide_eq_false_iff_not]
        rintro ⟨ha, hb⟩
        exact hcond ⟨ha, Or.inl hb⟩
      have htc : thesisOf rid c = false := by
        simp only [thesisOf, decide_eq_false_iff_not]
        rintro ⟨ha, hb⟩
        exact hcond ⟨ha, Or.inr hb⟩
      rw [hstep, annotateStep_other cfg sqrtQ rid pubs0 hpc htc]
    · intro hrag hrole
      have hpc : pubOf rid c = true := by simp [pubOf, hrag, hrole]
      rw [hstep, annotateStep_pub cfg sqrtQ rid pubs0 hpc]
      exact Or.inr rfl
    · intro hrag hrole
      have htc : thesisOf rid c = true := by simp [thesisOf, hrag, hrole]
      have hpc : pubOf rid c = false := pubOf_of_thesisOf htc
      rw [hstep, annotateStep_thesis cfg sqrtQ rid pubs0 hpc htc]
      have hb := annotateOne_base cfg sqrtQ pubs0 c
      exact ⟨annotateOne cfg sqrtQ pubs0 c, rfl, hb.1, hb.2.1, hb.2.2.1,
        hb.2.2.2.1, hb.2.2.2.2.1, hb.2.2.2.2.2.1, hb.2.2.2.2.2.2.1,
        hb.2.2.2.2.2.2.2.1, hb.2.2.2.2.2.2.2.2.1, hb.2.2.2.2.2.2.2.2.2.1,
        hb.2.2.2.2.2.2.2.2.2.2.1, hb.2.2.2.2.2.2.2.2.2.2.2.1,
        hb.2.2.2.2.2.2.2.2.2.2.2.2.1, Or.inr hb.2.2.2.2.2.2.2.2.2.2.2.2.2⟩
    · intro hcond
      have htc : thesisOf rid c = false := by
        simp only [thesisOf, decide_eq_false_iff_not]
        exact hcond
      by_cases hpc : pubOf rid c = true
      · rw [hstep, annotateStep_pub cfg sqrtQ rid pubs0 hpc]
        exact ⟨backfillHash c, rfl, rfl, rfl, rfl⟩
      · rw [hstep, annotateStep_other cfg sqrtQ rid pubs0 (by simpa using hpc) htc]
        exact ⟨c, rfl, rfl, rfl, rfl⟩

/-- C10 witness: in the concrete three-chunk store, the web chunk's
redundancy triple is untouched by annotation. -/
theorem C10_annotate_frame_w :
    ∃ c' : RagChunk, (annotateThesisRedundancy defaultDedupConfig (fun _ => 0) c10Store "ns").chunks[2]? =
        some c' ∧ c'.isRedundant = c10WebChunk.isRedundant ∧
      c'.redundantOf = c10WebChunk.redundantOf ∧
      c'.redundancyScore = c10WebChunk.redundancyScore :=
  ((C10_annotate_frame defaultDedupConfig (fun _ => 0) c10Store "ns").2.2 2
    c10WebChunk rfl).2.2.2 (by decide)

/-! ## Redundancy engine: exact match (C4) and near-duplicate search (C3) -/

/-- The annotated store at the position of a thesis chunk of the namespace
is the annotateOne image of that chunk. -/
theorem annotate_at (cfg : DedupConfig) (sqrtQ : ℚ → ℚ) (store : RagStore)
    (rid : String) (i : Nat) (c : RagChunk) (hc : store.chunks[i]? = some c)
    (hrag : c.ragId = rid) (hrole : c.sourceRole = RagSourceRole.thesis) :
    (annotateThesisRedundancy cfg sqrtQ store rid).chunks[i]? =
      some (annotateOne cfg sqrtQ
        ((store.chunks.filter (pubOf rid)).map backfillHash) c) := by
  have hmem : c ∈ store.chunks := by
    obtain ⟨h, rfl⟩ := List.getElem?_eq_some.1 hc
    exact List.getElem_mem h
  have hth : thesisOf rid c = true := by simp [thesisOf, hrag, hrole]
  have hne : store.chunks.filter (thesisOf rid) ≠ [] :=
    List.ne_nil_of_mem (List.mem_filter.2 ⟨hmem, hth⟩)
  rw [annotate_of_thesis_ne cfg sqrtQ store rid hne]
  show (store.chunks.map _)[i]? = _
  rw [List.getElem?_map, hc, Option.map_some']
  rw [annotateStep_thesis cfg sqrtQ rid _ (pubOf_of_thesisOf hth) hth]

theorem novelSentenceRatio_self (s : String) : novelSentenceRatio s s = 0 := by
  unfold novelSentenceRatio
  by_cases h : (splitSentences s).isEmpty = true
  · rw [if_pos h]
  · rw [if_neg h]
    have he : (splitSentences s).filter (fun t => decide (t ∉ splitSentences s)) = [] := by
      apply List.filter_eq_nil_iff.2
      intro a ha
      simp [ha]
    show (((splitSentences s).filter
        (fun t => decide (t ∉ splitSentences s))).length : ℚ) /
      ((splitSentences s).length : ℚ) = 0
    rw [he]
    simp

/-- C4: when a publication chunk shares the thesis chunk's normalized hash
(the first such chunk in publication order is used), a novelty ratio below
the threshold marks the thesis chunk redundant against it with score
exactly 1; whether or not it is marked, the near-duplicate search is
skipped (the chunk is left unmarked when the novelty gate fails, even if a
near-duplicate candidate exists); and a thesis chunk whose text is
byte-identical to the match has novelty ratio 0. -/
theorem C4_exact_match (cfg : DedupConfig) (sqrtQ : ℚ → ℚ) (store : RagStore)
    (rid : String) (i : Nat) (c p : RagChunk)
    (hc : store.chunks[i]? = some c) (hrag : c.ragId = rid)
    (hrole : c.sourceRole = RagSourceRole.thesis)
    (hfind : ((store.chunks.filter (pubOf rid)).map backfillHash).find?
        (fun q => decide (effectiveHash q = effectiveHash c)) = some p) :
    (novelSentenceRatio c.text p.text < cfg.novelSentenceThreshold →
      ∃ c' : RagChunk, (annotateThesisRedundancy cfg sqrtQ store rid).chunks[i]? = some c' ∧
        c'.isRedundant = true ∧ c'.redundantOf = some p.id ∧
        c'.redundancyScore = some 1) ∧
    (cfg.novelSentenceThreshold ≤ novelSentenceRatio c.text p.text →
      ∃ c' : RagChunk, (annotateThesisRedundancy cfg sqrtQ store rid).chunks[i]? = some c' ∧
        c'.isRedundant = false ∧ c'.redundantOf = none ∧
        c'.redundancyScore = none) ∧
    (c.text = p.text → novelSentenceRatio c.text p.text = 0) := by
  have hat := annotate_at cfg sqrtQ store rid i c hc hrag hrole
  set pubs0 := (store.chunks.filter (pubOf rid)).map backfillHash with hp0
  have hne : pubs0 ≠ [] := List.ne_nil_of_mem (List.mem_of_find?_eq_some hfind)
  have hfind' : pubs0.find?
      (fun q => decide (effectiveHash q = effectiveHash (resetChunk c))) = some p := hfind
  have hcore : annotateOne cfg sqrtQ pubs0 c =
      (if novelSentenceRatio (resetChunk c).text p.text < cfg.novelSentenceThreshold then
        { resetChunk c with
          isRedundant := true, redundantOf := some p.id, redundancyScore := some 1 }
      else resetChunk c) := by
    unfold annotateOne annotateCore
    rw [if_neg (by simpa using hne)]
    rw [hfind']
  refine ⟨?_, ?_, ?_⟩
  · intro hnov
    refine ⟨_, hat, ?_⟩
    rw [hcore, if_pos (show novelSentenceRatio (resetChunk c).text p.text <
      cfg.novelSentenceThreshold from hnov)]
    exact ⟨rfl, rfl, rfl⟩
  · intro hnov
    refine ⟨_, hat, ?_⟩
    rw [hcore, if_neg (show ¬ novelSentenceRatio (resetChunk c).text p.text <
      cfg.novelSentenceThreshold from not_lt.2 hnov)]
    exact ⟨rfl, rfl, rfl⟩
  · intro heq
    rw [heq, novelSentenceRatio_self]

/-- C4 witness: in the concrete store with byte-identical publication and
thesis chunks, the thesis chunk ends up redundant with score 1. -/
theorem C4_exact_match_w :
    ∃ c' : RagChunk, (annotateThesisRedundancy defaultDedupConfig (fun _ => 0)
        c4Store "ns").chunks[1]? = some c' ∧
      c'.isRedundant = true ∧ c'.redundantOf = some (backfillHash c4PubChunk).id ∧
      c'.redundancyScore = some 1 :=
  (C4_exact_match defaultDedupConfig (fun _ => 0) c4Store "ns" 1 c4ThesisChunk
    (backfillHash c4PubChunk) rfl rfl rfl (by with_unfolding_all decide)).1
    (by with_unfolding_all decide)

theorem scanF_skip (cfg : DedupConfig) (sqrtQ : ℚ → ℚ) (t p : RagChunk)
    (h : ¬ QualNearDup cfg sqrtQ t p) (acc : Option (RagChunk × ℚ)) :
    scanF cfg sqrtQ t acc p = acc := by
  simp only [scanF]
  by_cases hl : lexicalOverlapScore t.text p.text < cfg.lexicalThreshold
  · rw [if_pos hl]
  · rw [if_neg hl]
    have hcos : pairCosine sqrtQ t p < cfg.cosineThreshold := by
      rcases not_and_or.1 h with h1 | h2
      · exact absurd (not_lt.1 hl) h1
      · exact not_le.1 h2
    rw [if_pos hcos]

theorem scanF_qual (cfg : DedupConfig) (sqrtQ : ℚ → ℚ) (t p : RagChunk)
    (h : QualNearDup cfg sqrtQ t p) (acc : Option (RagChunk × ℚ)) :
    scanF cfg sqrtQ t acc p =
      (match acc with
       | none => some (p, combinedSim sqrtQ t p)
       | some (q, s) =>
         if s < combinedSim sqrtQ t p then some (p, combinedSim sqrtQ t p)
         else some (q, s)) := by
  simp only [scanF]
  rw [if_neg (not_lt.2 h.1), if_neg (not_lt.2 h.2)]
  rcases acc with _ | ⟨q, s⟩ <;> rfl

/-- Fold invariant for the near-duplicate scan: the accumulator is always a
qualifying pair with its combined similarity, the result is none exactly
when nothing qualifies, and the final score dominates the combined
similarity of every qualifying chunk. -/
theorem scan_fold_spec (cfg : DedupConfig) (sqrtQ : ℚ → ℚ) (t : RagChunk) :
    ∀ (pubs : List RagChunk) (acc : Option (RagChunk × ℚ)),
      (∀ b0, acc = some b0 →
          b0.2 = combinedSim sqrtQ t b0.1 ∧ QualNearDup cfg sqrtQ t b0.1) →
      (pubs.foldl (scanF cfg sqrtQ t) acc = none →
        acc = none ∧ ∀ p ∈ pubs, ¬ QualNearDup cfg sqrtQ t p) ∧
      (∀ b, pubs.foldl (scanF cfg sqrtQ t) acc = some b →
        b.2 = combinedSim sqrtQ t b.1 ∧ QualNearDup cfg sqrtQ t b.1 ∧
          (b.1 ∈ pubs ∨ acc = some b)) ∧
      (∀ q ∈ pubs, QualNearDup cfg sqrtQ t q →
        ∃ b, pubs.foldl (scanF cfg sqrtQ t) acc = some b ∧
          combinedSim sqrtQ t q ≤ b.2) ∧
      (∀ b0, acc = some b0 →
        ∃ b, pubs.foldl (scanF cfg sqrtQ t) acc = some b ∧ b0.2 ≤ b.2) := by
  intro pubs
  induction pubs with
  | nil =>
    intro acc hacc
    refine ⟨fun h => ⟨h, by simp⟩, ?_, by simp, ?_⟩
    · intro b hb
      obtain ⟨h1, h2⟩ := hacc b hb
      exact ⟨h1, h2, Or.inr hb⟩
    · intro b0 h
      exact ⟨b0, h, le_refl _⟩
  | cons p rest ih =>
    intro acc hacc
    rw [List.foldl_cons]
    by_cases hq : QualNearDup cfg sqrtQ t p
    · have hstep := scanF_qual cfg sqrtQ t p hq acc
      rcases hA : acc with _ | ⟨q0, s0⟩
      · subst hA
        simp only [] at hstep
        have hacc' : ∀ b0, some (p, combinedSim sqrtQ t p) = some b0 →
            b0.2 = combinedSim sqrtQ t b0.1 ∧ QualNearDup cfg sqrtQ t b0.1 := by
          intro b0 hb0
          cases hb0
          exact ⟨rfl, hq⟩
        obtain ⟨ih1, ih2, ih3, ih4⟩ := ih (some (p, combinedSim sqrtQ t p)) hacc'
        rw [hstep]
        refine ⟨?_, ?_, ?_, ?_⟩
        · intro hnone
          exact absurd (ih1 hnone).1 (by simp)
        · intro b hb
          obtain ⟨h1, h2, h3⟩ := ih2 b hb
          refine ⟨h1, h2, ?_⟩
          rcases h3 with h | h
          · exact Or.inl (List.mem_cons_of_mem _ h)
          · cases h
            exact Or.inl (List.mem_cons_self _ _)
        · intro q hqmem hqq
          rcases List.mem_cons.1 hqmem with rfl | hmem
          · obtain ⟨b, hb, hle⟩ := ih4 (q, combinedSim sqrtQ t q) rfl
            exact ⟨b, hb, hle⟩
          · exact ih3 q hmem hqq
        · intro b0 hb0
          cases hb0
      · subst hA
        simp only [] at hstep
        obtain ⟨hs0, hq0⟩ := hacc (q0, s0) rfl
        by_cases hlt : s0 < combinedSim sqrtQ t p
        · rw [if_pos hlt] at hstep
          have hacc' : ∀ b0, some (p, combinedSim sqrtQ t p) = some b0 →
              b0.2 = combinedSim sqrtQ t b0.1 ∧ QualNearDup cfg sqrtQ t b0.1 := by
            intro b0 hb0
            cases hb0
            exact ⟨rfl, hq⟩
          obtain ⟨ih1, ih2, ih3, ih4⟩ := ih (some (p, combinedSim sqrtQ t p)) hacc'
          rw [hstep]
          refine ⟨?_, ?_, ?_, ?_⟩
          · intro hnone
            exact absurd (ih1 hnone).1 (by simp)
          · intro b hb
            obtain ⟨h1, h2, h3⟩ := ih2 b hb
            refine ⟨h1, h2, ?_⟩
            rcases h3 with h | h
            · exact Or.inl (List.mem_cons_of_mem _ h)
            · cases h
              exact Or.inl (List.mem_cons_self _ _)
          · intro q hqmem hqq
            rcases List.mem_cons.1 hqmem with rfl | hmem
            · obtain ⟨b, hb, hle⟩ := ih4 (q, combinedSim sqrtQ t q) rfl
              exact ⟨b, hb, hle⟩
            · exact ih3 q hmem hqq
          · intro b0 hb0
            cases hb0
            obtain ⟨b, hb, hle⟩ := ih4 (p, combinedSim sqrtQ t p) rfl
            exact ⟨b, hb, le_trans (le_of_lt hlt) hle⟩
        · rw [if_neg hlt] at hstep
          obtain ⟨ih1, ih2, ih3, ih4⟩ := ih (some (q0, s0)) (by
            intro b0 hb0
            cases hb0
            exact ⟨hs0, hq0⟩)
          rw [hstep]
          refine ⟨?_, ?_, ?_, ?_⟩
          · intro hnone
            exact absurd (ih1 hnone).1 (by simp)
          · intro b hb
            obtain ⟨h1, h2, h3⟩ := ih2 b hb
            refine ⟨h1, h2, ?_⟩
            rcases h3 with h | h
            · exact Or.inl (List.mem_cons_of_mem _ h)
            · exact Or.inr h
          · intro q hqmem hqq
            rcases List.mem_cons.1 hqmem with rfl | hmem
            · obtain ⟨b, hb, hle⟩ := ih4 (q0, s0) rfl
              refine ⟨b, hb, le_trans ?_ hle⟩
              exact not_lt.1 hlt
            · exact ih3 q hmem hqq
          · intro b0 hb0
            cases hb0
            obtain ⟨b, hb, hle⟩ := ih4 (q0, s0) rfl
            exact ⟨b, hb, hle⟩
    · rw [scanF_skip cfg sqrtQ t p hq acc]
      obtain ⟨ih1, ih2, ih3, ih4⟩ := ih acc hacc
      refine ⟨?_, ?_, ?_, ih4⟩
      · intro hnone
        obtain ⟨h1, h2⟩ := ih1 hnone
        refine ⟨h1, ?_⟩
        intro q hqmem
        rcases List.mem_cons.1 hqmem with rfl | hmem
        · exact hq
        · exact h2 q hmem
      · intro b hb
        obtain ⟨h1, h2, h3⟩ := ih2 b hb
        refine ⟨h1, h2, ?_⟩
        rcases h3 with h | h
        · exact Or.inl (List.mem_cons_of_mem _ h)
        · exact Or.inr h
      · intro q hqmem hqq
        rcases List.mem_cons.1 hqmem with rfl | hmem
        · exact absurd hqq hq
        · exact ih3 q hmem hqq

theorem nearDupScan_eq_none_iff (cfg : DedupConfig) (sqrtQ : ℚ → ℚ)
    (t : RagChunk) (pubs : List RagChunk) :
    nearDupScan cfg sqrtQ t pubs = none ↔
      ∀ p ∈ pubs, ¬ QualNearDup cfg sqrtQ t p := by
  have hspec := scan_fold_spec cfg sqrtQ t pubs none (by intro b0 h; cases h)
  constructor
  · intro h
    exact (hspec.1 h).2
  · intro h
    rcases he : nearDupScan cfg sqrtQ t pubs with _ | b
    · rfl
    · obtain ⟨_, hqual, hmem⟩ := hspec.2.1 b he
      rcases hmem with hm | hm
      · exact absurd hqual (h _ hm)
      · cases hm

theorem nearDupScan_best (cfg : DedupConfig) (sqrtQ : ℚ → ℚ) (t : RagChunk)
    (pubs : List RagChunk) (hq : ∃ p ∈ pubs, QualNearDup cfg sqrtQ t p) :
    ∃ b, nearDupScan cfg sqrtQ t pubs = some b ∧ b.1 ∈ pubs ∧
      QualNearDup cfg sqrtQ t b.1 ∧ b.2 = combinedSim sqrtQ t b.1 ∧
      ∀ q ∈ pubs, QualNearDup cfg sqrtQ t q → combinedSim sqrtQ t q ≤ b.2 := by
  have hspec := scan_fold_spec cfg sqrtQ t pubs none (by intro b0 h; cases h)
  obtain ⟨p, hp, hpq⟩ := hq
  obtain ⟨b, hb, hle⟩ := hspec.2.2.1 p hp hpq
  obtain ⟨heq, hqual, hmem⟩ := hspec.2.1 b hb
  refine ⟨b, hb, ?_, hqual, heq, ?_⟩
  · rcases hmem with h | h
    · exact h
    · cases h
  · intro q hq' hq''
    obtain ⟨b', hb', hle'⟩ := hspec.2.2.1 q hq' hq''
    rw [hb] at hb'
    cases hb'
    exact hle'

/-- C3 (amended): in the near-duplicate search for a thesis chunk with no
exact-hash match, a publication chunk qualifies when its lexical 5-gram
Jaccard is at or above the lexical threshold AND its cosine — computed as 0
when either side lacks an embedding — is at or above the cosine threshold;
hence a missing embedding disqualifies every pair whenever the cosine
threshold is positive (this is the corrected part: the claim said the
cosine condition could not disqualify such pairs). The qualifying chunk
maximizing (cosine+lexical)/2 is kept subject to the novelty gate, and the
chunk stays non-redundant when nothing qualifies. -/
theorem C3_neardup_amended (cfg : DedupConfig) (sqrtQ : ℚ → ℚ)
    (store : RagStore) (rid : String) (i : Nat) (c : RagChunk)
    (hc : store.chunks[i]? = some c) (hrag : c.ragId = rid)
    (hrole : c.sourceRole = RagSourceRole.thesis)
    (hnoexact : ((store.chunks.filter (pubOf rid)).map backfillHash).find?
        (fun q => decide (effectiveHash q = effectiveHash c)) = none) :
    (0 < cfg.cosineThreshold → c.embedding = none →
      ∃ c' : RagChunk, (annotateThesisRedundancy cfg sqrtQ store rid).chunks[i]? = some c' ∧
        c'.isRedundant = false ∧ c'.redundantOf = none ∧ c'.redundancyScore = none) ∧
    ((∀ p ∈ (store.chunks.filter (pubOf rid)).map backfillHash,
        ¬ QualNearDup cfg sqrtQ c p) →
      ∃ c' : RagChunk, (annotateThesisRedundancy cfg sqrtQ store rid).chunks[i]? = some c' ∧
        c'.isRedundant = false ∧ c'.redundantOf = none ∧ c'.redundancyScore = none) ∧
    ((∃ p ∈ (store.chunks.filter (pubOf rid)).map backfillHash,
        QualNearDup cfg sqrtQ c p) →
      ∃ b, nearDupScan cfg sqrtQ (resetChunk c)
          ((store.chunks.filter (pubOf rid)).map backfillHash) = some b ∧
        b.1 ∈ (store.chunks.filter (pubOf rid)).map backfillHash ∧
        QualNearDup cfg sqrtQ c b.1 ∧ b.2 = combinedSim sqrtQ c b.1 ∧
        (∀ q ∈ (store.chunks.filter (pubOf rid)).map backfillHash,
          QualNearDup cfg sqrtQ c q → combinedSim sqrtQ c q ≤ b.2) ∧
        (novelSentenceRatio c.text b.1.text < cfg.novelSentenceThreshold →
          ∃ c' : RagChunk, (annotateThesisRedundancy cfg sqrtQ store rid).chunks[i]? = some c' ∧
            c'.isRedundant = true ∧ c'.redundantOf = some b.1.id ∧
            c'.redundancyScore = some b.2) ∧
        (cfg.novelSentenceThreshold ≤ novelSentenceRatio c.text b.1.text →
          ∃ c' : RagChunk, (annotateThesisRedundancy cfg sqrtQ store rid).chunks[i]? = some c' ∧
            c'.isRedundant = false ∧ c'.redundantOf = none ∧
            c'.redundancyScore = none)) := by
  have hat := annotate_at cfg sqrtQ store rid i c hc hrag hrole
  set pubs0 := (store.chunks.filter (pubOf rid)).map backfillHash with hp0
  by_cases hpe : pubs0 = []
  · have hcore : annotateOne cfg sqrtQ pubs0 c = resetChunk c := by
      unfold annotateOne annotateCore
      rw [if_pos (by simp [hpe])]
    rw [hcore] at hat
    refine ⟨?_, ?_, ?_⟩
    · intro _ _
      exact ⟨resetChunk c, hat, rfl, rfl, rfl⟩
    · intro _
      exact ⟨resetChunk c, hat, rfl, rfl, rfl⟩
    · rintro ⟨p, hp, _⟩
      rw [hpe] at hp
      cases hp
  · have hfind' : pubs0.find?
        (fun q => decide (effectiveHash q = effectiveHash (resetChunk c))) = none :=
      hnoexact
    have hcore : annotateOne cfg sqrtQ pubs0 c =
        (match nearDupScan cfg sqrtQ (resetChunk c) pubs0 with
         | none => resetChunk c
         | some (bestMatch, bestSimilarity) =>
           if cfg.novelSentenceThreshold ≤
               novelSentenceRatio (resetChunk c).text bestMatch.text then
             resetChunk c
           else
             { resetChunk c with
               isRedundant := true, redundantOf := some bestMatch.id,
               redundancyScore := some bestSimilarity }) := by
      unfold annotateOne annotateCore
      rw [if_neg (by simpa using hpe)]
      rw [hfind']
    have hnoqual : (∀ p ∈ pubs0, ¬ QualNearDup cfg sqrtQ c p) →
        ∃ c' : RagChunk, (annotateThesisRedundancy cfg sqrtQ store rid).chunks[i]? = some c' ∧
          c'.isRedundant = false ∧ c'.redundantOf = none ∧
          c'.redundancyScore = none := by
      intro h
      have hsc : nearDupScan cfg sqrtQ (resetChunk c) pubs0 = none :=
        (nearDupScan_eq_none_iff cfg sqrtQ (resetChunk c) pubs0).2 h
      rw [hcore, hsc] at hat
      exact ⟨resetChunk c, hat, rfl, rfl, rfl⟩
    refine ⟨?_, hnoqual, ?_⟩
    · intro hpos hemb
      apply hnoqual
      intro p _ hqual
      have h0 : pairCosine sqrtQ c p = 0 := by
        simp [pairCosine, hemb]
      have hle := hqual.2
      rw [h0] at hle
      exact absurd hle (not_le.2 hpos)
    · intro hq
      obtain ⟨b, hb, hmem, hqual, heq, hmax⟩ :=
        nearDupScan_best cfg sqrtQ (resetChunk c) pubs0 hq
      refine ⟨b, hb, hmem, hqual, heq, hmax, ?_, ?_⟩
      · intro hnov
        obtain ⟨b1, b2⟩ := b
        rw [hcore, hb] at hat
        simp only [] at hat
        rw [if_neg (not_le.2 (show
          novelSentenceRatio (resetChunk c).text b1.text <
            cfg.novelSentenceThreshold from hnov))] at hat
        exact ⟨_, hat, rfl, rfl, rfl⟩
      · intro hnov
        obtain ⟨b1, b2⟩ := b
        rw [hcore, hb] at hat
        simp only [] at hat
        rw [if_pos (show cfg.novelSentenceThreshold ≤
          novelSentenceRatio (resetChunk c).text b1.text from hnov)] at hat
        exact ⟨resetChunk c, hat, rfl, rfl, rfl⟩

/-- C3: the claim as stated is false on the code. In the concrete store the
thesis chunk and the publication chunk have 5-gram Jaccard 1 ≥ 0.85,
different normalized hashes (so the near-duplicate search runs), no
embeddings on either side, and novelty ratio 0 < 0.2 — under the claim the
pair qualifies (the missing embeddings must not disqualify it) and the
thesis chunk would be marked redundant; the code computes cosine 0 < 0.96
and leaves every chunk unmarked. -/
theorem C3_neardup_cex :
    (0.85 : ℚ) ≤ lexicalOverlapScore c3ThesisChunk.text c3PubChunk.text ∧
    getTextHash c3ThesisChunk.text ≠ getTextHash c3PubChunk.text ∧
    c3ThesisChunk.embedding = none ∧ c3PubChunk.embedding = none ∧
    novelSentenceRatio c3ThesisChunk.text c3PubChunk.text < (0.2 : ℚ) ∧
    ((annotateThesisRedundancy defaultDedupConfig (fun _ => 0) c3Store "ns").chunks.map
      fun c => (c.isRedundant, c.redundantOf, c.redundancyScore)) =
      [(false, none, none), (false, none, none)] := by
  refine ⟨by with_unfolding_all decide, by decide, rfl, rfl,
    by with_unfolding_all decide, by with_unfolding_all decide⟩

/-- C3 witness: the amended theorem applied to the concrete store — with a
positive cosine threshold and no embedding, the thesis chunk stays
non-redundant. -/
theorem C3_neardup_amended_w :
    ∃ c' : RagChunk, (annotateThesisRedundancy defaultDedupConfig (fun _ => 0)
        c3Store "ns").chunks[1]? = some c' ∧
      c'.isRedundant = false ∧ c'.redundantOf = none ∧ c'.redundancyScore = none :=
  (C3_neardup_amended defaultDedupConfig (fun _ => 0) c3Store "ns" 1 c3ThesisChunk
    rfl rfl rfl (by with_unfolding_all decide)).1 (by with_unfolding_all decide) rfl

/-! ## Retrieval engine lemmas -/

theorem selectCapped_subset (cap k : Nat) :
    ∀ (l sel : List RagChunk) (x : RagChunk),
      x ∈ selectCapped cap k l sel → x ∈ l ∨ x ∈ sel := by
  intro l
  induction l with
  | nil =>
    intro sel x hx
    exact Or.inr hx
  | cons c rest ih =>
    intro sel x hx
    simp only [selectCapped] at hx
    split at hx
    · exact Or.inr hx
    · split at hx
      · rcases ih _ _ hx with h | h
        · exact Or.inl (List.mem_cons_of_mem _ h)
        · exact Or.inr h
      · rcases ih _ _ hx with h | h
        · exact Or.inl (List.mem_cons_of_mem _ h)
        · rcases List.mem_append.1 h with h' | h'
          · exact Or.inr h'
          · simp only [List.mem_singleton] at h'
            subst h'
            exact Or.inl (List.mem_cons_self _ _)

theorem selectCapped_length (cap k : Nat) :
    ∀ (l sel : List RagChunk), sel.length ≤ k →
      (selectCapped cap k l sel).length ≤ k := by
  intro l
  induction l with
  | nil => intro sel h; exact h
  | cons c rest ih =>
    intro sel h
    simp only [selectCapped]
    split
    · exact h
    · split
      · exact ih sel h
      · rename_i hfull _
        apply ih
        simp only [List.length_append, List.length_singleton]
        omega

theorem docCount_append (d : String) (a b : List RagChunk) :
    docCount d (a ++ b) = docCount d a + docCount d b := by
  simp [docCount, List.filter_append]

theorem docCount_take_le (d : String) (n : Nat) (l : List RagChunk) :
    docCount d (l.take n) ≤ docCount d l :=
  List.Sublist.length_le (List.Sublist.filter _ (List.take_sublist n l))

theorem selectCapped_docCount (cap k : Nat) (d : String) :
    ∀ (l sel : List RagChunk), docCount d sel ≤ cap →
      docCount d (selectCapped cap k l sel) ≤ cap := by
  intro l
  induction l with
  | nil => intro sel h; exact h
  | cons c rest ih =>
    intro sel h
    simp only [selectCapped]
    split
    · exact h
    · split
      · exact ih sel h
      · rename_i hfull hcnt
        apply ih
        rw [docCount_append]
        by_cases hd : c.documentId = d
        · have : docCount d [c] = 1 := by simp [docCount, hd]
          rw [this]
          have hlt : docCount d sel < cap := by
            have := lt_of_not_le hcnt
            simpa [docCount, hd] using this
          omega
        · have : docCount d [c] = 0 := by simp [docCount, hd]
          rw [this]
          omega

theorem capAux_docCount (m : Nat) (d : String) :
    ∀ (l acc : List RagChunk), docCount d acc ≤ m →
      docCount d (capAux m l acc) ≤ m := by
  intro l
  induction l with
  | nil => intro acc h; exact h
  | cons c rest ih =>
    intro acc h
    simp only [capAux]
    split
    · exact ih acc h
    · rename_i hcnt
      apply ih
      rw [docCount_append]
      by_cases hd : c.documentId = d
      · have h1 : docCount d [c] = 1 := by simp [docCount, hd]
        rw [h1]
        have hlt : docCount d acc < m := by
          have := lt_of_not_le hcnt
          simpa [docCount, hd] using this
        omega
      · have h0 : docCount d [c] = 0 := by simp [docCount, hd]
        rw [h0]
        omega

theorem capChunksPerDocument_docCount (l : List RagChunk) (m : Nat) (d : String)
    (hm : 0 < m) : docCount d (capChunksPerDocument l m) ≤ m := by
  unfold capChunksPerDocument
  rw [if_neg (by omega)]
  exact capAux_docCount m d l [] (by simp [docCount])

theorem rankCandidates_fst_mem (penalty : ℚ) (sqrtQ : ℚ → ℚ)
    (qEmb : Option (List ℚ)) (query : String) (candidates : List RagChunk)
    {x : RagChunk}
    (hx : x ∈ (rankCandidates penalty sqrtQ qEmb query candidates).map Prod.fst) :
    x ∈ candidates := by
  simp only [rankCandidates, List.mem_map, List.mem_insertionSort] at hx
  obtain ⟨pr, hpr, heq⟩ := hx
  obtain ⟨c, hc, hceq⟩ := hpr
  rw [← heq, ← hceq]
  exact hc

theorem retrieve_mem (penalty : ℚ) (sqrtQ : ℚ → ℚ) (store : RagStore)
    (qEmb : Option (List ℚ)) (params : RetrieveParams) {x : RagChunk}
    (hx : x ∈ retrieveRelevantChunks penalty sqrtQ store qEmb params) :
    x ∈ retrieveCandidates store params := by
  unfold retrieveRelevantChunks at hx
  simp only [] at hx
  split at hx
  · simp at hx
  · split at hx
    · exact rankCandidates_fst_mem penalty sqrtQ qEmb params.query _
        (List.Sublist.subset (List.take_sublist _ _) hx)
    · rcases selectCapped_subset _ _ _ _ _ hx with h | h
      · exact rankCandidates_fst_mem penalty sqrtQ qEmb params.query _ h
      · simp at h

theorem retrieveCandidates_mem {store : RagStore} {params : RetrieveParams}
    {c : RagChunk} (hc : c ∈ retrieveCandidates store params) :
    c ∈ store.chunks ∧ c.ragId = params.ragId ∧
    (params.includeSourceRoles ≠ [] → c.sourceRole ∈ params.includeSourceRoles) ∧
    (params.includeDocumentNames ≠ [] → c.sourceName ∈ params.includeDocumentNames) ∧
    (params.excludeRedundant.getD false = true → c.isRedundant = false) := by
  unfold retrieveCandidates at hc
  simp only [] at hc
  have base : ∀ {x : RagChunk},
      x ∈ store.chunks.filter (fun ch => decide (ch.ragId = params.ragId)) →
      x ∈ store.chunks ∧ x.ragId = params.ragId := by
    intro x hx
    have := List.mem_filter.1 hx
    exact ⟨this.1, by simpa using this.2⟩
  by_cases hroles : params.includeSourceRoles.isEmpty
  · rw [if_pos hroles] at hc
    have hrn : params.includeSourceRoles = [] := List.isEmpty_iff.1 hroles
    by_cases hnames : params.includeDocumentNames.isEmpty
    · rw [if_pos hnames] at hc
      have hnn : params.includeDocumentNames = [] := List.isEmpty_iff.1 hnames
      split at hc
      · have h2 := List.mem_filter.1 hc
        obtain ⟨h3, h4⟩ := base h2.1
        exact ⟨h3, h4, fun h => absurd hrn h, fun h => absurd hnn h,
          fun _ => by simpa using h2.2⟩
      · obtain ⟨h3, h4⟩ := base hc
        rename_i hred
        exact ⟨h3, h4, fun h => absurd hrn h, fun h => absurd hnn h,
          fun h => absurd h hred⟩
    · rw [if_neg hnames] at hc
      split at hc
      · have h2 := List.mem_filter.1 hc
        have h5 := List.mem_filter.1 h2.1
        obtain ⟨h3, h4⟩ := base h5.1
        exact ⟨h3, h4, fun h => absurd hrn h, fun _ => by simpa using h5.2,
          fun _ => by simpa using h2.2⟩
      · have h5 := List.mem_filter.1 hc
        obtain ⟨h3, h4⟩ := base h5.1
        rename_i hred
        exact ⟨h3, h4, fun h => absurd hrn h, fun _ => by simpa using h5.2,
          fun h => absurd h hred⟩
  · rw [if_neg hroles] at hc
    by_cases hnames : params.includeDocumentNames.isEmpty
    · rw [if_pos hnames] at hc
      have hnn : params.includeDocumentNames = [] := List.isEmpty_iff.1 hnames
      split at hc
      · have h2 := List.mem_filter.1 hc
        have h5 := List.mem_filter.1 h2.1
        obtain ⟨h3, h4⟩ := base h5.1
        exact ⟨h3, h4, fun _ => by simpa using h5.2, fun h => absurd hnn h,
          fun _ => by simpa using h2.2⟩
      · have h5 := List.mem_filter.1 hc
        obtain ⟨h3, h4⟩ := base h5.1
        rename_i hred
        exact ⟨h3, h4, fun _ => by simpa using h5.2, fun h => absurd hnn h,
          fun h => absurd h hred⟩
    · rw [if_neg hnames] at hc
      split at hc
      · have h2 := List.mem_filter.1 hc
        have h5 := List.mem_filter.1 h2.1
        have h6 := List.mem_filter.1 h5.1
        obtain ⟨h3, h4⟩ := base h6.1
        exact ⟨h3, h4, fun _ => by simpa using h6.2, fun _ => by simpa using h5.2,
          fun _ => by simpa using h2.2⟩
      · have h5 := List.mem_filter.1 hc
        have h6 := List.mem_filter.1 h5.1
        obtain ⟨h3, h4⟩ := base h6.1
        rename_i hred
        exact ⟨h3, h4, fun _ => by simpa using h6.2, fun _ => by simpa using h5.2,
          fun h => absurd h hred⟩

theorem retrieve_length (penalty : ℚ) (sqrtQ : ℚ → ℚ) (store : RagStore)
    (qEmb : Option (List ℚ)) (params : RetrieveParams) :
    (retrieveRelevantChunks penalty sqrtQ store qEmb params).length ≤
      max 1 (params.topK.getD DEFAULT_RAG_TOP_K) := by
  unfold retrieveRelevantChunks
  simp only []
  split
  · simp
  · split
    · simp only [List.length_take]
      omega
    · exact selectCapped_length _ _ _ [] (by simp)

theorem retrieve_docCount (penalty : ℚ) (sqrtQ : ℚ → ℚ) (store : RagStore)
    (qEmb : Option (List ℚ)) (params : RetrieveParams) (m : Nat) (d : String)
    (hm : params.maxChunksPerDocument = some m) (h0 : 0 < m) :
    docCount d (retrieveRelevantChunks penalty sqrtQ store qEmb params) ≤ m := by
  unfold retrieveRelevantChunks
  simp only [hm]
  rw [if_pos h0]
  simp only []
  split
  · simp [docCount]
  · exact selectCapped_docCount m _ d _ [] (by simp [docCount])

theorem mixedRetrieve_proj (penalty : ℚ) (sqrtQ : ℚ → ℚ) (store : RagStore)
    (qEmb : Option (List ℚ)) (rid query : String) (topK : Nat)
    (intent : RagIntent) (ment : List RagDocument) (targets : List String)
    (hp ht : Bool) :
    (mixedRetrieve penalty sqrtQ store qEmb rid query topK intent ment
      targets hp ht).intent = intent ∧
    (mixedRetrieve penalty sqrtQ store qEmb rid query topK intent ment
      targets hp ht).targetDocumentNames = targets := by
  unfold mixedRetrieve
  simp only []
  split <;> exact ⟨rfl, rfl⟩

theorem mixedRetrieve_length (penalty : ℚ) (sqrtQ : ℚ → ℚ) (store : RagStore)
    (qEmb : Option (List ℚ)) (rid query : String) (topK : Nat)
    (intent : RagIntent) (ment : List RagDocument) (targets : List String)
    (hp ht : Bool) (h1 : 1 ≤ topK) :
    (mixedRetrieve penalty sqrtQ store qEmb rid query topK intent ment
      targets hp ht).chunks.length ≤ topK := by
  unfold mixedRetrieve
  simp only []
  split
  · simp only [List.length_take]
    omega
  · have h := retrieve_length penalty sqrtQ store qEmb
      { ragId := rid, query := query, topK := some topK,
        excludeRedundant := some false }
    simp only [Option.getD_some] at h
    simp only [mixedFallback]
    omega

theorem mixedRetrieve_docCount (penalty : ℚ) (sqrtQ : ℚ → ℚ) (store : RagStore)
    (qEmb : Option (List ℚ)) (rid query : String) (topK : Nat)
    (intent : RagIntent) (ment : List RagDocument) (targets : List String)
    (hp ht : Bool) :
    (∀ d, docCount d (mixedRetrieve penalty sqrtQ store qEmb rid query topK
      intent ment targets hp ht).chunks ≤ 2) ∨
    (mixedRetrieve penalty sqrtQ store qEmb rid query topK intent ment
      targets hp ht).chunks =
      retrieveRelevantChunks penalty sqrtQ store qEmb
        { ragId := rid, query := query, topK := some topK,
          excludeRedundant := some false } := by
  unfold mixedRetrieve
  simp only []
  split
  · left
    intro d
    simp only []
    refine le_trans (docCount_take_le d topK _) ?_
    unfold mixedCombined
    simp only []
    split
    · exact capChunksPerDocument_docCount _ 2 d (by omega)
    · exact capChunksPerDocument_docCount _ 2 d (by omega)
  · right
    simp only []
    rfl

/-- C6 counterexample: with one mentioned publication and topK = 1, the
paper_specific branch returns min(max 2 topK, |strict|) = 2 chunks, so the
spec bound len ≤ topK fails for topK = 1. -/
theorem C6_topk_cex :
    1 < (retrieveIntentContext defaultRedundantThesisPenalty (fun _ => 0)
      c6Store none "ns" "transformers results" 1).chunks.length := by
  with_unfolding_all decide

/-- C6 (amended): for every store, query and topK, the retrieval engine
returns at most max 2 (max 1 topK) chunks; in particular the spec bound
len ≤ topK does hold whenever topK ≥ 2, but the paper_specific branch may
return 2 chunks when topK = 1. -/
theorem C6_topk_amended (penalty : ℚ) (sqrtQ : ℚ → ℚ) (store : RagStore)
    (qEmb : Option (List ℚ)) (rid query : String) (topK : Nat) :
    (retrieveIntentContext penalty sqrtQ store qEmb rid query topK).chunks.length ≤
      max 2 (max 1 topK) ∧
    (2 ≤ topK →
      (retrieveIntentContext penalty sqrtQ store qEmb rid query topK).chunks.length ≤
        topK) := by
  suffices h : (retrieveIntentContext penalty sqrtQ store qEmb rid query
      topK).chunks.length ≤ max 2 (max 1 topK) by
    exact ⟨h, fun h2 => by omega⟩
  unfold retrieveIntentContext
  simp only []
  split
  · split
    · simp only [List.length_take]
      omega
    · simp
  · split
    · split
      · simp only [List.length_take]
        omega
      · exact le_trans
          (mixedRetrieve_length _ _ _ _ _ _ _ _ _ _ _ _ (Nat.le_max_left 1 topK))
          (by omega)
    · exact le_trans
        (mixedRetrieve_length _ _ _ _ _ _ _ _ _ _ _ _ (Nat.le_max_left 1 topK))
        (by omega)

/-- Witness for C6: at topK = 2 the bound len ≤ topK holds on a concrete
store. -/
theorem C6_topk_amended_w :
    (retrieveIntentContext defaultRedundantThesisPenalty (fun _ => 0) c6Store
      none "ns" "transformers results" 2).chunks.length ≤ 2 :=
  (C6_topk_amended defaultRedundantThesisPenalty (fun _ => 0) c6Store none
    "ns" "transformers results" 2).2 (by decide)

/-- C2 counterexample: the fully unfiltered fallback rung of the mixed path
applies no per-document cap: a store whose only matches are three web chunks
of one document returns all three. -/
theorem C2_diversity_cex :
    2 < docCount "d1" ((retrieveIntentContext defaultRedundantThesisPenalty
      (fun _ => 0) c2Store none "ns" "hello" 3).chunks) := by
  with_unfolding_all decide

/-- C2 (amended): retrieveRelevantChunks respects maxChunksPerDocument
whenever one is set (positive); at the intent-context level every branch
except the final unfiltered fallback is capped at max 2 (min 4 (max 1 topK))
chunks per document, but the fallback rung passes no cap at all. -/
theorem C2_diversity_amended (penalty : ℚ) (sqrtQ : ℚ → ℚ) (store : RagStore)
    (qEmb : Option (List ℚ)) :
    (∀ (params : RetrieveParams) (m : Nat) (d : String),
      params.maxChunksPerDocument = some m → 0 < m →
      docCount d (retrieveRelevantChunks penalty sqrtQ store qEmb params) ≤ m) ∧
    (∀ (rid query : String) (topK : Nat),
      (∀ d, docCount d (retrieveIntentContext penalty sqrtQ store qEmb rid
        query topK).chunks ≤ max 2 (min 4 (max 1 topK))) ∨
      (retrieveIntentContext penalty sqrtQ store qEmb rid query topK).chunks =
        retrieveRelevantChunks penalty sqrtQ store qEmb
          { ragId := rid, query := query, topK := some (max 1 topK),
            excludeRedundant := some false }) := by
  constructor
  · intro params m d hm h0
    exact retrieve_docCount penalty sqrtQ store qEmb params m d hm h0
  · intro rid query topK
    unfold retrieveIntentContext
    simp only []
    split
    · split
      · left
        intro d
        refine le_trans (docCount_take_le d _ _) ?_
        exact retrieve_docCount penalty sqrtQ store qEmb _ _ d rfl (by omega)
      · left
        intro d
        simp [docCount]
    · split
      · split
        · left
          intro d
          refine le_trans (docCount_take_le d _ _) ?_
          exact le_trans (capChunksPerDocument_docCount _ 2 d (by omega)) (by omega)
        · have h := mixedRetrieve_docCount penalty sqrtQ store qEmb rid query
            (max 1 topK)
            (detectIntent query (findMentionedDocuments query (listRagDocuments store rid)))
            (findMentionedDocuments query (listRagDocuments store rid))
            ((((findMentionedDocuments query (listRagDocuments store rid)).filter
              fun doc => decide (doc.sourceRole = RagSourceRole.publication)).take 4).map
              fun doc => doc.fileName)
            ((listRagDocuments store rid).any
              fun doc => decide (doc.sourceRole = RagSourceRole.publication))
            ((listRagDocuments store rid).any
              fun doc => decide (doc.sourceRole = RagSourceRole.thesis))
          rcases h with h | h
          · left
            intro d
            exact le_trans (h d) (by omega)
          · right
            exact h
      · have h := mixedRetrieve_docCount penalty sqrtQ store qEmb rid query
          (max 1 topK)
          (detectIntent query (findMentionedDocuments query (listRagDocuments store rid)))
          (findMentionedDocuments query (listRagDocuments store rid))
          ((((findMentionedDocuments query (listRagDocuments store rid)).filter
            fun doc => decide (doc.sourceRole = RagSourceRole.publication)).take 4).map
            fun doc => doc.fileName)
          ((listRagDocuments store rid).any
            fun doc => decide (doc.sourceRole = RagSourceRole.publication))
          ((listRagDocuments store rid).any
            fun doc => decide (doc.sourceRole = RagSourceRole.thesis))
        rcases h with h | h
        · left
          intro d
          exact le_trans (h d) (by omega)
        · right
          exact h

/-- Witness for C2 (amended): a capped call on a concrete store returns at
most 1 chunk of document d1. -/
theorem C2_diversity_amended_w :
    docCount "d1" (retrieveRelevantChunks defaultRedundantThesisPenalty
      (fun _ => 0) c2Store none
      { ragId := "ns", query := "hello", topK := some 3,
        maxChunksPerDocument := some 1 }) ≤ 1 :=
  (C2_diversity_amended defaultRedundantThesisPenalty (fun _ => 0) c2Store
    none).1
    { ragId := "ns", query := "hello", topK := some 3,
      maxChunksPerDocument := some 1 } 1 "d1" rfl (by decide)

/-- C1: when the classified intent is paper_specific with a target
publication X at the head of targetDocumentNames, every returned chunk has
sourceName X, the publication role and is non-redundant; and if the
hard-filtered strict query returns zero chunks the context's chunk list is
empty -- no other documents are substituted. -/
theorem C1_paper_specific (penalty : ℚ) (sqrtQ : ℚ → ℚ) (store : RagStore)
    (qEmb : Option (List ℚ)) (rid query : String) (topK : Nat)
    (X : String) (rest : List String)
    (hint : (retrieveIntentContext penalty sqrtQ store qEmb rid query
      topK).intent = RagIntent.paper_specific)
    (htarg : (retrieveIntentContext penalty sqrtQ store qEmb rid query
      topK).targetDocumentNames = X :: rest) :
    (∀ ch ∈ (retrieveIntentContext penalty sqrtQ store qEmb rid query
        topK).chunks,
      ch.sourceName = X ∧ ch.sourceRole = RagSourceRole.publication ∧
        ch.isRedundant = false) ∧
    (retrieveRelevantChunks penalty sqrtQ store qEmb
        { ragId := rid, query := query, topK := some (max 2 (max 1 topK)),
          includeDocumentNames := [X],
          includeSourceRoles := [RagSourceRole.publication],
          excludeRedundant := some true,
          maxChunksPerDocument := some (max 2 (min 4 (max 1 topK))) } = [] →
      (retrieveIntentContext penalty sqrtQ store qEmb rid query
        topK).chunks = []) := by
  unfold retrieveIntentContext at hint htarg ⊢
  simp only [] at hint htarg ⊢
  split at hint
  · rename_i h1
    rw [if_pos h1] at htarg ⊢
    split at htarg
    · rename_i h2
      rw [if_pos h2]
      simp only [] at htarg
      injection htarg with hX hrest
      subst hX
      constructor
      · intro ch hch
        have hch2 := List.Sublist.subset (List.take_sublist _ _) hch
        have hm := retrieve_mem penalty sqrtQ store qEmb _ hch2
        obtain ⟨_, _, hroles, hnames, hred⟩ := retrieveCandidates_mem hm
        refine ⟨?_, ?_, hred rfl⟩
        · have := hnames (by simp)
          simpa using this
        · have := hroles (by simp)
          simpa using this
      · intro hempty
        exact absurd hempty h2
    · rename_i h2
      rw [if_neg h2]
      simp only [] at htarg
      injection htarg with hX hrest
      subst hX
      constructor
      · intro ch hch
        simp at hch
      · intro _
        rfl
  · rename_i h1
    rw [if_neg h1] at htarg ⊢
    split at hint
    · rename_i h3
      rw [if_pos h3] at htarg ⊢
      split at hint
      · simp only [] at hint
        rw [h3.1] at hint
        simp at hint
      · rw [(mixedRetrieve_proj _ _ _ _ _ _ _ _ _ _ _ _).1] at hint
        rw [h3.1] at hint
        simp at hint
    · rename_i h3
      rw [if_neg h3] at htarg ⊢
      rw [(mixedRetrieve_proj _ _ _ _ _ _ _ _ _ _ _ _).1] at hint
      rw [(mixedRetrieve_proj _ _ _ _ _ _ _ _ _ _ _ _).2] at htarg
      exact absurd ⟨hint, by rw [htarg]; simp⟩ h1

/-- Witness for C1 on a concrete store: a paper_specific query returns only
chunks of the mentioned publication. -/
theorem C1_paper_specific_w :
    (∀ ch ∈ (retrieveIntentContext defaultRedundantThesisPenalty (fun _ => 0)
        c1Store none "ns" "segmenter results" 2).chunks,
      ch.sourceName = "segmenter.pdf" ∧
        ch.sourceRole = RagSourceRole.publication ∧
        ch.isRedundant = false) ∧
    (retrieveRelevantChunks defaultRedundantThesisPenalty (fun _ => 0)
        c1Store none
        { ragId := "ns", query := "segmenter results",
          topK := some (max 2 (max 1 2)),
          includeDocumentNames := ["segmenter.pdf"],
          includeSourceRoles := [RagSourceRole.publication],
          excludeRedundant := some true,
          maxChunksPerDocument := some (max 2 (min 4 (max 1 2))) } = [] →
      (retrieveIntentContext defaultRedundantThesisPenalty (fun _ => 0)
        c1Store none "ns" "segmenter results" 2).chunks = []) :=
  C1_paper_specific defaultRedundantThesisPenalty (fun _ => 0) c1Store none
    "ns" "segmenter results" 2 "segmenter.pdf" []
    (by with_unfolding_all decide) (by with_unfolding_all decide)

/-- C7 counterexample: a query mentioning exactly one publication and
containing no compare/future/overview term and ALSO no paper-signal term is
still classified paper_specific, because the mention itself sets
hasPaperSignals; the claim demands technical_cross_paper here. -/
theorem C7_intent_cex :
    (([c1Doc] : List RagDocument).filter
      fun doc => decide (doc.sourceRole = RagSourceRole.publication)).length = 1 ∧
    hasAnyTerm (normalizeMatchText "tell me about segmenter") COMPARE_TERMS = false ∧
    hasAnyTerm (normalizeMatchText "tell me about segmenter") FUTURE_INTENT_TERMS = false ∧
    hasAnyTerm (normalizeMatchText "tell me about segmenter") OVERVIEW_INTENT_TERMS = false ∧
    hasAnyTerm (normalizeMatchText "tell me about segmenter") PAPER_SIGNAL_TERMS = false ∧
    detectIntent "tell me about segmenter" [c1Doc] = RagIntent.paper_specific := by
  with_unfolding_all decide

/-- C7 (amended): with exactly one mentioned publication and no
compare/future/overview signal, the classifier returns paper_specific
unconditionally -- a mention alone satisfies hasPaperSignals, so no
paper-signal term in the query is required. -/
theorem C7_intent_amended (query : String) (docs : List RagDocument)
    (h1 : (docs.filter
      fun doc => decide (doc.sourceRole = RagSourceRole.publication)).length = 1)
    (hc : hasAnyTerm (normalizeMatchText query) COMPARE_TERMS = false)
    (hf : hasAnyTerm (normalizeMatchText query) FUTURE_INTENT_TERMS = false)
    (ho : hasAnyTerm (normalizeMatchText query) OVERVIEW_INTENT_TERMS = false) :
    detectIntent query docs = RagIntent.paper_specific := by
  unfold detectIntent
  simp [h1, hc, hf, ho]

/-- Witness for C7 (amended) on a concrete document list and query. -/
theorem C7_intent_amended_w :
    detectIntent "tell me about segmenter" [c1Doc] = RagIntent.paper_specific :=
  C7_intent_amended "tell me about segmenter" [c1Doc]
    (by with_unfolding_all decide) (by with_unfolding_all decide)
    (by with_unfolding_all decide) (by with_unfolding_all decide)

/-! ## Citation-marker machinery (claim C5) -/

theorem substrOf_trans {a b c : List Char} (h1 : SubstrOf a b) (h2 : SubstrOf b c) :
    SubstrOf a c := by
  obtain ⟨l1, r1, hb⟩ := h1
  obtain ⟨l2, r2, hc⟩ := h2
  exact ⟨l2 ++ l1, r1 ++ r2, by rw [hc, hb]; simp [List.append_assoc]⟩

theorem substrOf_of_pfx {a s : List Char} (h : a <+: s) : SubstrOf a s := by
  obtain ⟨r, hr⟩ := h
  exact ⟨[], r, by simp [hr.symm]⟩

theorem substrOf_of_suffix {a s : List Char} (h : a <:+ s) : SubstrOf a s := by
  obtain ⟨l, hl⟩ := h
  exact ⟨l, [], by simp [hl.symm]⟩

theorem trimLeft_substr (l : List Char) : SubstrOf (trimLeft l) l :=
  substrOf_of_suffix (List.dropWhile_suffix isWs)

theorem trimRight_substr (l : List Char) : SubstrOf (trimRight l) l :=
  substrOf_of_pfx (trimRight_pfx l)

theorem jsTrim_substr (l : List Char) : SubstrOf (jsTrim l) l :=
  substrOf_trans (trimRight_substr _) (trimLeft_substr l)

theorem take_substr (n : Nat) (l : List Char) : SubstrOf (l.take n) l :=
  substrOf_of_pfx (List.take_prefix n l)

theorem stripSections_substr (t : String) :
    SubstrOf (stripModelProvidedEvidenceSections t).toList t.toList := by
  unfold stripModelProvidedEvidenceSections
  simp only []
  split
  · exact jsTrim_substr _
  · exact substrOf_trans (jsTrim_substr _) (take_substr _ _)

theorem markerClean_mono {valid : List String} {s t : List Char}
    (h : MarkerClean valid s) (hsub : SubstrOf t s) : MarkerClean valid t :=
  fun X hX hXt => h X hX (substrOf_trans hXt hsub)

theorem mem_of_substr {c : Char} {pat s : List Char} (h : SubstrOf pat s)
    (hc : c ∈ pat) : c ∈ s := by
  obtain ⟨l, r, rfl⟩ := h
  simp [hc]

theorem noBracket_markerClean {valid : List String} {cs : List Char}
    (h : '[' ∉ cs) : MarkerClean valid cs := by
  intro X hX hsub
  exact absurd (mem_of_substr hsub (by simp)) h

theorem validMarkerForm_alnum {X : List Char} (h : validMarkerFormB X = true) :
    ∀ c ∈ X, c.isAlphanum = true := by
  unfold validMarkerFormB at h
  simp only [Bool.or_eq_true] at h
  have key : ∀ (pfx : List Char), (∀ c ∈ pfx, c.isAlphanum = true) →
      (pfx.isPrefixOf X &&
        (let ds := X.drop pfx.length
         !ds.isEmpty && ds.all fun c => c.isDigit)) = true →
      ∀ c ∈ X, c.isAlphanum = true := by
    intro pfx hp halt
    simp only [Bool.and_eq_true] at halt
    obtain ⟨h1, _, h3⟩ := halt
    have hpre : pfx <+: X := by
      exact List.isPrefixOf_iff_prefix.1 h1
    obtain ⟨t, ht⟩ := hpre
    have htd : t = X.drop pfx.length := by
      rw [← ht]
      simp
    intro c hc
    rw [← ht] at hc
    rcases List.mem_append.1 hc with hm | hm
    · exact hp c hm
    · have hd := List.all_eq_true.1 h3 c (by rw [← htd]; exact hm)
      simp only [decide_eq_true_eq] at hd
      simp [Char.isAlphanum, hd]
  rcases h with ((((h | h) | h) | h) | h)
  · exact key ['T', 'R'] (by decide) h
  · exact key ['P'] (by decide) h
  · exact key ['T'] (by decide) h
  · exact key ['W'] (by decide) h
  · exact key ['S'] (by decide) h

theorem validMarkerForm_no_bracket {X : List Char} (h : validMarkerFormB X = true) :
    '[' ∉ X ∧ ']' ∉ X := by
  refine ⟨fun hm => ?_, fun hm => ?_⟩
  · exact absurd (validMarkerForm_alnum h _ hm) (by decide)
  · exact absurd (validMarkerForm_alnum h _ hm) (by decide)

theorem patChar_cases {c : Char} {X : List Char}
    (h : c ∈ '[' :: (X ++ [']'])) : c = '[' ∨ c = ']' ∨ c ∈ X := by
  simp only [List.mem_cons, List.mem_append, List.mem_singleton] at h
  tauto

theorem substrOf_append_cases {pat A B : List Char} (h : SubstrOf pat (A ++ B)) :
    SubstrOf pat A ∨ SubstrOf pat B ∨
    ∃ a b, pat = a ++ b ∧ a ≠ [] ∧ b ≠ [] ∧ a <:+ A ∧ b <+: B := by
  obtain ⟨l, r, hlr⟩ := h
  have h0 : A ++ B = l ++ (pat ++ r) := by rw [hlr]; simp [List.append_assoc]
  rcases List.append_eq_append_iff.1 h0 with ⟨a', ha1, ha2⟩ | ⟨c', hc1, hc2⟩
  · right; left
    exact ⟨a', r, by rw [ha2]; simp [List.append_assoc]⟩
  · rcases List.append_eq_append_iff.1 hc2 with ⟨a', ha1, ha2⟩ | ⟨q, hq1, hq2⟩
    · left
      exact ⟨l, a', by rw [hc1, ha1]; simp [List.append_assoc]⟩
    · rcases Decidable.em (c' = []) with hc | hc
      · right; left
        subst hc
        simp only [List.nil_append] at hq1
        exact ⟨[], r, by simp [hq1.symm, hq2]⟩
      · rcases Decidable.em (q = []) with hq | hq
        · left
          subst hq
          rw [List.append_nil] at hq1
          exact ⟨l, [], by rw [hc1, hq1]; simp⟩
        · right; right
          exact ⟨c', q, hq1, hc, hq, ⟨l, hc1.symm⟩, ⟨r, hq2.symm⟩⟩

theorem markerClean_append_left {valid : List String} {A B : List Char}
    (hA : '[' ∉ A) (hB : MarkerClean valid B) : MarkerClean valid (A ++ B) := by
  intro X hX hsub
  rcases substrOf_append_cases hsub with h | h | ⟨a, b, hab, ha, hb, hsuf, hpre⟩
  · exact absurd (mem_of_substr h (by simp)) hA
  · exact hB X hX h
  · exfalso
    rcases a with _ | ⟨x, xs⟩
    · exact ha rfl
    · have hx : x = '[' := by
        have h0 : '[' :: (X ++ [']']) = x :: (xs ++ b) := by simpa using hab
        exact (List.cons_eq_cons.1 h0).1.symm
      obtain ⟨l, hl⟩ := hsuf
      apply hA
      rw [← hl]
      subst hx
      simp

theorem markerClean_append_safe {valid : List String} {A B : List Char} {c : Char}
    (hA : MarkerClean valid A) (hB : MarkerClean valid B)
    (hhead : B.head? = some c) (hc1 : c.isAlphanum = false) (hc2 : c ≠ '[')
    (hc3 : c ≠ ']') : MarkerClean valid (A ++ B) := by
  intro X hX hsub
  rcases substrOf_append_cases hsub with h | h | ⟨a, b, hab, ha, hb, hsuf, hpre⟩
  · exact hA X hX h
  · exact hB X hX h
  · exfalso
    rcases b with _ | ⟨y, ys⟩
    · exact hb rfl
    · have hy : y = c := by
        obtain ⟨r, hr⟩ := hpre
        rw [← hr] at hhead
        simpa using hhead
      subst hy
      have hyc : y ∈ '[' :: (X ++ [']']) := by
        rw [hab]
        exact List.mem_append_right a (by simp)
      rcases patChar_cases hyc with h1 | h1 | h1
      · exact hc2 h1
      · exact hc3 h1
      · rw [validMarkerForm_alnum hX _ h1] at hc1
        cases hc1

theorem bracket_unique_split {u : List Char} :
    ∀ {v l rest : List Char}, '[' ∉ u → '[' ∉ v →
      u ++ '[' :: v = l ++ '[' :: rest → l = u ∧ rest = v := by
  induction u with
  | nil =>
    intro v l rest _ hv h
    cases l with
    | nil =>
      simp only [List.nil_append] at h
      exact ⟨rfl, ((List.cons_eq_cons.1 h).2).symm⟩
    | cons x xs =>
      simp only [List.nil_append, List.cons_append] at h
      have hvv : v = xs ++ '[' :: rest := (List.cons_eq_cons.1 h).2
      exfalso
      apply hv
      rw [hvv]
      simp
  | cons x xs ih =>
    intro v l rest hu hv h
    cases l with
    | nil =>
      simp only [List.cons_append, List.nil_append] at h
      have hx : x = '[' := (List.cons_eq_cons.1 h).1
      exact absurd (by rw [hx]; exact List.mem_cons_self _ _) hu
    | cons y ys =>
      simp only [List.cons_append] at h
      have h1 := List.cons_eq_cons.1 h
      have hu' : '[' ∉ xs := fun hm => hu (List.mem_cons_of_mem _ hm)
      obtain ⟨hl, hr⟩ := ih hu' hv h1.2
      exact ⟨by rw [hl, h1.1], hr⟩

theorem eq_of_rbracketfree {X : List Char} :
    ∀ {m r b : List Char}, ']' ∉ X → ']' ∉ m →
      X ++ ']' :: r = m ++ ']' :: b → X = m := by
  induction X with
  | nil =>
    intro m r b _ hm h
    cases m with
    | nil => rfl
    | cons y ys =>
      simp only [List.nil_append, List.cons_append] at h
      have hy : ']' = y := (List.cons_eq_cons.1 h).1
      exact absurd (by rw [← hy] at hm ⊢; exact List.mem_cons_self _ _) hm
  | cons x xs ih =>
    intro m r b hX hm h
    cases m with
    | nil =>
      simp only [List.cons_append, List.nil_append] at h
      have hx : x = ']' := (List.cons_eq_cons.1 h).1
      subst hx
      exact absurd (List.mem_cons_self _ _) hX
    | cons y ys =>
      simp only [List.cons_append] at h
      have h1 := List.cons_eq_cons.1 h
      have hX' : ']' ∉ xs := fun hmem => hX (List.mem_cons_of_mem _ hmem)
      have hm' : ']' ∉ ys := fun hmem => hm (List.mem_cons_of_mem _ hmem)
      rw [h1.1, ih hX' hm' h1.2]

theorem markerClean_bracket_piece {valid : List String} {m B : List Char}
    (hm : validMarkerFormB m = true) (hmem : String.mk m ∈ valid)
    (hB : '[' ∉ B) : MarkerClean valid ('[' :: (m ++ ']' :: B)) := by
  intro X hX hsub
  obtain ⟨l, r, hlr⟩ := hsub
  have hmb := validMarkerForm_no_bracket hm
  have hXb := validMarkerForm_no_bracket hX
  have hlr' : ([] : List Char) ++ '[' :: (m ++ ']' :: B) =
      l ++ '[' :: (X ++ ']' :: r) := by
    rw [List.nil_append, hlr]
    simp [List.append_assoc]
  have hv : '[' ∉ m ++ ']' :: B := by
    intro hmem'
    rcases List.mem_append.1 hmem' with h | h
    · exact hmb.1 h
    · rcases List.mem_cons.1 h with h | h
      · exact absurd h (by decide)
      · exact hB h
  obtain ⟨_, hrest⟩ := bracket_unique_split (by simp) hv hlr'
  rw [eq_of_rbracketfree hXb.2 hmb.2 hrest]
  exact hmem

theorem tryMarkerAlt_struct {pfx cs m rest' : List Char}
    (h : tryMarkerAlt pfx cs = some (m, rest')) :
    cs = m ++ ']' :: rest' ∧
    (pfx.isPrefixOf m &&
      (let ds := m.drop pfx.length
       !ds.isEmpty && ds.all fun c => c.isDigit)) = true := by
  unfold tryMarkerAlt at h
  by_cases hpre : pfx.isPrefixOf cs
  · rw [if_pos hpre] at h
    simp only [] at h
    by_cases hde : ((cs.drop pfx.length).takeWhile fun c => c.isDigit).isEmpty
    · rw [if_pos hde] at h
      cases h
    · rw [if_neg hde] at h
      split at h
      · rename_i rest0 hmatch
        simp only [Option.some.injEq, Prod.mk.injEq] at h
        obtain ⟨hm, hr⟩ := h
        subst hr
        set d := cs.drop pfx.length with hd
        set ds := d.takeWhile (fun c => c.isDigit) with hds
        have hp2 : pfx <+: cs := List.isPrefixOf_iff_prefix.1 hpre
        obtain ⟨t, ht⟩ := hp2
        have htd : t = d := by rw [hd, ← ht]; simp
        have htw : ds <+: d := by rw [hds]; exact List.takeWhile_prefix _
        obtain ⟨t2, ht2⟩ := htw
        have ht2d : t2 = d.drop ds.length := by rw [← ht2]; simp
        have ht2e : t2 = ']' :: rest0 := ht2d.trans hmatch
        constructor
        · rw [← hm, ← ht, htd, ← ht2, ht2e]
          simp [List.append_assoc]
        · rw [← hm]
          simp only [Bool.and_eq_true]
          have hdrop : (pfx ++ ds).drop pfx.length = ds := by simp
          refine ⟨List.isPrefixOf_iff_prefix.2 ⟨ds, rfl⟩, ?_, ?_⟩
          · rw [hdrop]
            simpa using hde
          · rw [hdrop]
            refine List.all_eq_true.2 fun c hc => ?_
            rw [hds] at hc
            simpa using List.mem_takeWhile_imp hc
      · cases h
  · rw [if_neg hpre] at h
    cases h

theorem tryMarker_sound {cs m rest' : List Char}
    (h : tryMarker cs = some (m, rest')) :
    cs = '[' :: (m ++ ']' :: rest') ∧ validMarkerFormB m = true := by
  unfold tryMarker at h
  split at h
  · rename_i rest
    have halt : ∀ {pfx : List Char}, tryMarkerAlt pfx rest = some (m, rest') →
        rest = m ++ ']' :: rest' ∧
        (pfx.isPrefixOf m &&
          (let ds := m.drop pfx.length
           !ds.isEmpty && ds.all fun c => c.isDigit)) = true :=
      fun halt => tryMarkerAlt_struct halt
    rcases h1 : tryMarkerAlt ['T', 'R'] rest with _ | ⟨p1⟩
    · rcases h2 : tryMarkerAlt ['P'] rest with _ | ⟨p2⟩
      · rcases h3 : tryMarkerAlt ['T'] rest with _ | ⟨p3⟩
        · rcases h4 : tryMarkerAlt ['W'] rest with _ | ⟨p4⟩
          · rcases h5 : tryMarkerAlt ['S'] rest with _ | ⟨p5⟩
            · rw [h1, h2, h3, h4, h5] at h
              simp [Option.orElse] at h
            · rw [h1, h2, h3, h4, h5] at h
              simp only [Option.orElse] at h
              have hp : p5 = (m, rest') := by simpa using h
              rw [hp] at h5
              obtain ⟨hs, hv⟩ := halt h5
              exact ⟨by rw [hs], by
                unfold validMarkerFormB
                simp only []
                simp only [Bool.or_eq_true]
                exact Or.inr hv⟩
          · rw [h1, h2, h3, h4] at h
            simp only [Option.orElse] at h
            have hp : p4 = (m, rest') := by simpa using h
            rw [hp] at h4
            obtain ⟨hs, hv⟩ := halt h4
            exact ⟨by rw [hs], by
                unfold validMarkerFormB
                simp only []
                simp only [Bool.or_eq_true]
                exact Or.inl (Or.inr hv)⟩
        · rw [h1, h2, h3] at h
          simp only [Option.orElse] at h
          have hp : p3 = (m, rest') := by simpa using h
          rw [hp] at h3
          obtain ⟨hs, hv⟩ := halt h3
          exact ⟨by rw [hs], by
                unfold validMarkerFormB
                simp only []
                simp only [Bool.or_eq_true]
                exact Or.inl (Or.inl (Or.inr hv))⟩
      · rw [h1, h2] at h
        simp only [Option.orElse] at h
        have hp : p2 = (m, rest') := by simpa using h
        rw [hp] at h2
        obtain ⟨hs, hv⟩ := halt h2
        exact ⟨by rw [hs], by
                unfold validMarkerFormB
                simp only []
                simp only [Bool.or_eq_true]
                exact Or.inl (Or.inl (Or.inl (Or.inr hv)))⟩
    · rw [h1] at h
      simp only [Option.orElse] at h
      have hp : p1 = (m, rest') := by simpa using h
      rw [hp] at h1
      obtain ⟨hs, hv⟩ := halt h1
      exact ⟨by rw [hs], by
                unfold validMarkerFormB
                simp only []
                simp only [Bool.or_eq_true]
                exact Or.inl (Or.inl (Or.inl (Or.inl hv)))⟩
  · cases h

theorem scanMarkersAux_flatten : ∀ fuel (cs : List Char), cs.length ≤ fuel →
    flattenTokens (scanMarkersAux fuel cs) = cs := by
  intro fuel
  induction fuel with
  | zero =>
    intro cs h
    rw [List.length_eq_zero.1 (Nat.le_zero.1 h)]
    rfl
  | succ n ih =>
    intro cs h
    rcases cs with _ | ⟨c, rest⟩
    · rfl
    · simp only [scanMarkersAux]
      by_cases hc : c = '['
      · rw [if_pos hc]
        rcases ht : tryMarker (c :: rest) with _ | ⟨m, rest2⟩
        · simp only [flattenTokens]
          rw [ih rest (by simp at h; omega)]
        · simp only [flattenTokens]
          obtain ⟨hcs, _⟩ := tryMarker_sound ht
          have hlen : rest2.length ≤ n := by
            have hlc := congrArg List.length hcs
            simp at hlc h
            omega
          rw [ih rest2 hlen]
          have h0 : '[' :: (m ++ ']' :: rest2) = c :: rest := hcs.symm
          simpa using h0
      · rw [if_neg hc]
        simp only [flattenTokens]
        rw [ih rest (by simp at h; omega)]

theorem scanMarkersAux_marker_sound : ∀ fuel (cs m : List Char),
    MarkerToken.marker m ∈ scanMarkersAux fuel cs →
    validMarkerFormB m = true ∧ SubstrOf ('[' :: (m ++ [']'])) cs := by
  intro fuel
  induction fuel with
  | zero =>
    intro cs m h
    simp [scanMarkersAux] at h
  | succ n ih =>
    intro cs m h
    rcases cs with _ | ⟨c, rest⟩
    · simp [scanMarkersAux] at h
    · simp only [scanMarkersAux] at h
      by_cases hc : c = '['
      · rw [if_pos hc] at h
        rcases ht : tryMarker (c :: rest) with _ | ⟨m1, rest2⟩
        · rw [ht] at h
          simp only [] at h
          rcases List.mem_cons.1 h with h1 | h1
          · cases h1
          · obtain ⟨hvm, ⟨l, r, hlr⟩⟩ := ih rest m h1
            exact ⟨hvm, ⟨c :: l, r, by rw [hlr]; rfl⟩⟩
        · rw [ht] at h
          simp only [] at h
          rcases List.mem_cons.1 h with h1 | h1
          · have hm : m = m1 := by
              injection h1
            obtain ⟨hcs, hvm⟩ := tryMarker_sound ht
            subst hm
            refine ⟨hvm, ⟨[], rest2, ?_⟩⟩
            rw [hcs]
            simp [List.append_assoc]
          · obtain ⟨hvm, ⟨l, r, hlr⟩⟩ := ih rest2 m h1
            obtain ⟨hcs, _⟩ := tryMarker_sound ht
            refine ⟨hvm, ⟨'[' :: (m1 ++ ']' :: l), r, ?_⟩⟩
            rw [hcs, hlr]
            simp [List.append_assoc]
      · rw [if_neg hc] at h
        rcases List.mem_cons.1 h with h1 | h1
        · cases h1
        · obtain ⟨hvm, ⟨l, r, hlr⟩⟩ := ih rest m h1
          exact ⟨hvm, ⟨c :: l, r, by rw [hlr]; rfl⟩⟩

theorem renderTokens_all (valid : List String) : ∀ ts : List MarkerToken,
    (∀ m, MarkerToken.marker m ∈ ts → String.mk m ∈ valid) →
    renderTokens valid ts = flattenTokens ts := by
  intro ts
  induction ts with
  | nil => intro _; rfl
  | cons t rest ih =>
    intro h
    cases t with
    | plain c =>
      simp only [renderTokens, flattenTokens]
      rw [ih fun m hm => h m (List.mem_cons_of_mem _ hm)]
    | marker m =>
      simp only [renderTokens, flattenTokens]
      rw [if_pos (h m (List.mem_cons_self _ _)),
        ih fun m2 hm2 => h m2 (List.mem_cons_of_mem _ hm2)]

theorem strip_eq_self {valid : List String} {text : String}
    (h : MarkerClean valid text.toList) :
    stripUnknownMarkers text valid = text := by
  unfold stripUnknownMarkers
  have hall : ∀ m, MarkerToken.marker m ∈ scanMarkers text.toList →
      String.mk m ∈ valid := by
    intro m hm
    obtain ⟨hvm, hsub⟩ := scanMarkersAux_marker_sound _ _ m hm
    exact h m hvm hsub
  rw [renderTokens_all valid _ hall]
  show String.mk (flattenTokens (scanMarkersAux text.toList.length text.toList)) = text
  rw [scanMarkersAux_flatten _ _ le_rfl]
  rfl

theorem str_toList_append (a b : String) :
    (a ++ b).toList = a.toList ++ b.toList := rfl

theorem markerClean_joinSep {valid : List String} (sep : String) (c : Char)
    (hhead : sep.toList.head? = some c) (hc1 : c.isAlphanum = false)
    (hc2 : c ≠ '[') (hc3 : c ≠ ']') (hsepb : '[' ∉ sep.toList) :
    ∀ (as : List String) (a : String), MarkerClean valid a.toList →
      (∀ x ∈ as, MarkerClean valid x.toList) →
      MarkerClean valid (joinSep sep (a :: as)).toList := by
  intro as
  induction as with
  | nil =>
    intro a ha _
    exact ha
  | cons x rest ih =>
    intro a ha hall
    have hstep : joinSep sep (a :: x :: rest) =
        joinSep sep ((a ++ sep ++ x) :: rest) := rfl
    rw [hstep]
    apply ih
    · have hl : (a ++ sep ++ x).toList = a.toList ++ (sep ++ x).toList := by
        show (a.toList ++ sep.toList) ++ x.toList =
          a.toList ++ (sep.toList ++ x.toList)
        exact List.append_assoc _ _ _
      rw [hl]
      have hh : (sep ++ x).toList.head? = some c := by
        show (sep.toList ++ x.toList).head? = some c
        rcases hs : sep.toList with _ | ⟨c0, cr⟩
        · rw [hs] at hhead
          cases hhead
        · rw [hs] at hhead
          exact hhead
      exact markerClean_append_safe ha
        (markerClean_append_left hsepb
          (hall x (List.mem_cons_self _ _))) hh hc1 hc2 hc3
    · exact fun y hy => hall y (List.mem_cons_of_mem _ hy)

theorem sourceLabelStr_no_bracket (lbl : EvidenceSourceLabel) :
    '[' ∉ (sourceLabelStr lbl).toList := by
  cases lbl <;> decide

theorem markerClean_line {valid : List String} (m lab t v y cid : String)
    (hm : validMarkerFormB m.toList = true) (hv : m ∈ valid)
    (hlab : '[' ∉ lab.toList) (ht : '[' ∉ t.toList) (hvv : '[' ∉ v.toList)
    (hy : '[' ∉ y.toList) (hcid : '[' ∉ cid.toList) :
    MarkerClean valid ("- [" ++ m ++ "] " ++ lab ++ " | " ++ t ++
      " | venue: " ++ v ++ " | year: " ++ y ++ " | chunk: " ++ cid).toList := by
  have hB : '[' ∉ (' ' :: (lab.toList ++ (" | ".toList ++ (t.toList ++
      (" | venue: ".toList ++ (v.toList ++ (" | year: ".toList ++ (y.toList ++
      (" | chunk: ".toList ++ cid.toList))))))))) := by
    simp only [List.mem_cons, List.mem_append]
    intro h
    rcases h with h | h | h | h | h | h | h | h | h | h
    · exact absurd h (by decide)
    · exact hlab h
    · exact absurd h (by decide)
    · exact ht h
    · exact absurd h (by decide)
    · exact hvv h
    · exact absurd h (by decide)
    · exact hy h
    · exact absurd h (by decide)
    · exact hcid h
  simp only [str_toList_append, List.append_assoc]
  exact markerClean_append_left (A := ['-', ' ']) (by decide)
    (markerClean_bracket_piece hm hv hB)

theorem markerClean_evidenceBlock {valid : List String}
    {refs : List EvidenceReference}
    (hm : ∀ r ∈ refs, validMarkerFormB r.marker.toList = true)
    (hv : ∀ r ∈ refs, r.marker ∈ valid)
    (hf : ∀ r ∈ refs, '[' ∉ r.title.toList ∧ '[' ∉ r.venue.toList ∧
      '[' ∉ r.year.toList ∧ '[' ∉ r.chunkId.toList) :
    MarkerClean valid (buildEvidenceMarkdownBlock refs).toList := by
  unfold buildEvidenceMarkdownBlock
  split
  · exact noBracket_markerClean (by simp)
  · apply markerClean_joinSep "\n" '\n' rfl (by decide) (by decide) (by decide)
      (by decide)
    · exact noBracket_markerClean (by decide)
    · intro x hx
      obtain ⟨r, hr, hxeq⟩ := List.mem_map.1 hx
      rw [← hxeq]
      exact markerClean_line r.marker (sourceLabelStr r.sourceLabel) r.title
        r.venue r.year r.chunkId (hm r hr) (hv r hr)
        (sourceLabelStr_no_bracket _) (hf r hr).1 (hf r hr).2.1
        (hf r hr).2.2.1 (hf r hr).2.2.2

theorem markerClean_markerJoin {valid : List String}
    (rs : List EvidenceReference)
    (hm : ∀ r ∈ rs, validMarkerFormB r.marker.toList = true)
    (hv : ∀ r ∈ rs, r.marker ∈ valid) :
    MarkerClean valid (joinSep " " (rs.map fun r => "[" ++ r.marker ++ "]")).toList := by
  rcases rs with _ | ⟨r0, rest⟩
  · exact noBracket_markerClean (by decide)
  · rw [List.map_cons]
    apply markerClean_joinSep " " ' ' rfl (by decide) (by decide) (by decide)
      (by decide)
    · exact markerClean_bracket_piece (hm r0 (List.mem_cons_self _ _))
        (hv r0 (List.mem_cons_self _ _)) (by simp)
    · intro x hx
      obtain ⟨r, hr, hxeq⟩ := List.mem_map.1 hx
      rw [← hxeq]
      exact markerClean_bracket_piece (hm r (List.mem_cons_of_mem _ hr))
        (hv r (List.mem_cons_of_mem _ hr)) (by simp)

theorem digitChar_isDigit {k : Nat} (h : k < 10) : (digitChar k).isDigit = true := by
  interval_cases k <;> decide

theorem natDigitsAux_digits : ∀ fuel n, n < fuel →
    natDigitsAux fuel n ≠ [] ∧ ∀ c ∈ natDigitsAux fuel n, c.isDigit = true := by
  intro fuel
  induction fuel with
  | zero =>
    intro n h
    omega
  | succ f ih =>
    intro n h
    simp only [natDigitsAux]
    by_cases h10 : n < 10
    · rw [if_pos h10]
      refine ⟨by simp, ?_⟩
      intro c hc
      simp only [List.mem_singleton] at hc
      rw [hc]
      exact digitChar_isDigit h10
    · rw [if_neg h10]
      have hlt : n / 10 < f := by omega
      obtain ⟨hne, hdig⟩ := ih (n / 10) hlt
      refine ⟨by simp, ?_⟩
      intro c hc
      rcases List.mem_append.1 hc with h1 | h1
      · exact hdig c h1
      · simp only [List.mem_singleton] at h1
        rw [h1]
        exact digitChar_isDigit (Nat.mod_lt n (by omega))

theorem natDigits_spec (n : Nat) :
    natDigits n ≠ [] ∧ ∀ c ∈ natDigits n, c.isDigit = true :=
  natDigitsAux_digits (n + 1) n (by omega)

theorem marker_form (lbl : EvidenceSourceLabel) (n : Nat) :
    validMarkerFormB ((markerPrefixForSource lbl ++ natToStr n).toList) = true := by
  obtain ⟨hne, hdig⟩ := natDigits_spec n
  have halt : ∀ (pfx : List Char),
      (pfx.isPrefixOf (pfx ++ natDigits n) &&
        (let ds := (pfx ++ natDigits n).drop pfx.length
         !ds.isEmpty && ds.all fun c => c.isDigit)) = true := by
    intro pfx
    simp only [Bool.and_eq_true]
    have hdrop : (pfx ++ natDigits n).drop pfx.length = natDigits n := by simp
    refine ⟨List.isPrefixOf_iff_prefix.2 ⟨_, rfl⟩, ?_, ?_⟩
    · rw [hdrop]
      rcases hd : natDigits n with _ | ⟨c, cs⟩
      · exact absurd hd hne
      · simp
    · rw [hdrop]
      exact List.all_eq_true.2 fun c hc => by simpa using hdig c hc
  cases lbl
  · unfold validMarkerFormB
    simp only []
    simp only [Bool.or_eq_true]
    exact Or.inl (Or.inl (Or.inl (Or.inr (halt ['P']))))
  · unfold validMarkerFormB
    simp only []
    simp only [Bool.or_eq_true]
    exact Or.inl (Or.inl (Or.inr (halt ['T'])))
  · unfold validMarkerFormB
    simp only []
    simp only [Bool.or_eq_true]
    exact Or.inl (Or.inl (Or.inl (Or.inl (halt ['T', 'R']))))
  · unfold validMarkerFormB
    simp only []
    simp only [Bool.or_eq_true]
    exact Or.inl (Or.inr (halt ['W']))
  · unfold validMarkerFormB
    simp only []
    simp only [Bool.or_eq_true]
    exact Or.inr (halt ['S'])

theorem foldl_mem_invariant {α β : Type} (P : β → Prop) (f : List β → α → List β)
    (hf : ∀ acc x, (∀ r ∈ acc, P r) → ∀ r ∈ f acc x, P r) :
    ∀ (l : List α) (acc : List β), (∀ r ∈ acc, P r) →
      ∀ r ∈ l.foldl f acc, P r := by
  intro l
  induction l with
  | nil =>
    intro acc h
    exact h
  | cons x xs ih =>
    intro acc h
    exact ih (f acc x) (hf acc x h)

theorem buildRefs_marker_form (chunks : List RagChunk) (docs : List RagDocument) :
    ∀ r ∈ buildEvidenceReferences chunks docs,
      validMarkerFormB r.marker.toList = true := by
  intro r hr
  unfold buildEvidenceReferences at hr
  refine foldl_mem_invariant
    (fun r2 => validMarkerFormB r2.marker.toList = true) _ ?_ chunks []
    (by simp) r hr
  intro acc chunk hacc r2 hr2
  simp only [] at hr2
  rcases List.mem_append.1 hr2 with h1 | h1
  · exact hacc r2 h1
  · simp only [List.mem_singleton] at h1
    rw [h1]
    exact marker_form _ _

theorem markerClean_trim_join {valid : List String} (A S B : String)
    (hA : MarkerClean valid A.toList) (hB : MarkerClean valid B.toList)
    (hS1 : S.toList.head? = some '\n') (hS2 : '[' ∉ S.toList) :
    MarkerClean valid (String.mk (jsTrim ((A ++ S) ++ B).toList)).toList := by
  have hl : ((A ++ S) ++ B).toList = A.toList ++ (S.toList ++ B.toList) := by
    show (A.toList ++ S.toList) ++ B.toList = A.toList ++ (S.toList ++ B.toList)
    exact List.append_assoc _ _ _
  have hclean : MarkerClean valid ((A ++ S) ++ B).toList := by
    rw [hl]
    have hh : (S.toList ++ B.toList).head? = some '\n' := by
      rcases hs : S.toList with _ | ⟨c0, cr⟩
      · rw [hs] at hS1
        cases hS1
      · rw [hs] at hS1
        exact hS1
    exact markerClean_append_safe hA (markerClean_append_left hS2 hB) hh
      (by decide) (by decide) (by decide)
  exact markerClean_mono hclean (jsTrim_substr _)

theorem markerClean_noteBlock {valid : List String} (notes : List String)
    (h : ∀ note ∈ notes, '[' ∉ note.toList) :
    MarkerClean valid (joinSep "\n" ("### Evidence Notes" :: notes.map
      fun note => "- " ++ note)).toList := by
  apply markerClean_joinSep "\n" '\n' rfl (by decide) (by decide) (by decide)
    (by decide)
  · exact noBracket_markerClean (by decide)
  · intro x hx
    obtain ⟨note, hn, hxe⟩ := List.mem_map.1 hx
    rw [← hxe]
    refine noBracket_markerClean ?_
    show '[' ∉ "- ".toList ++ note.toList
    intro hmem
    rcases List.mem_append.1 hmem with h1 | h1
    · exact absurd h1 (by decide)
    · exact h note hn h1

theorem markerClean_ite {valid : List String} (c : Prop) [Decidable c]
    (A B : String) (hA : MarkerClean valid A.toList)
    (hB : MarkerClean valid B.toList) :
    MarkerClean valid (if c then A else B).toList := by
  by_cases hc : c
  · rw [if_pos hc]
    exact hA
  · rw [if_neg hc]
    exact hB

theorem mem_ite_singleton {α : Type} {x a : α} {c : Prop} [Decidable c]
    (h : x ∈ (if c then [a] else [])) : x = a := by
  by_cases hc : c
  · rw [if_pos hc] at h
    simpa using h
  · rw [if_neg hc] at h
    simp at h

theorem mem_ite_pair {α : Type} {x a b : α} {c d : Prop} [Decidable c]
    [Decidable d] (h : x ∈ (if c then (if d then [a] else [b]) else [])) :
    x = a ∨ x = b := by
  by_cases hc : c
  · rw [if_pos hc] at h
    by_cases hd : d
    · rw [if_pos hd] at h
      exact Or.inl (by simpa using h)
    · rw [if_neg hd] at h
      exact Or.inr (by simpa using h)
  · rw [if_neg hc] at h
    simp at h

theorem enforce_markerClean (query : String) (ctx : IntentContext)
    (text0 : String) (refs : List EvidenceReference)
    (hclean : MarkerClean (refs.map fun r => r.marker) text0.toList)
    (hmark : ∀ r ∈ refs, validMarkerFormB r.marker.toList = true)
    (hfields : ∀ r ∈ refs, '[' ∉ r.title.toList ∧ '[' ∉ r.venue.toList ∧
      '[' ∉ r.year.toList ∧ '[' ∉ r.chunkId.toList)
    (htarget : '[' ∉ (ctx.targetDocumentNames.headD "").toList) :
    MarkerClean (refs.map fun r => r.marker)
      (enforceCitationContract query ctx text0 refs).responseText.toList := by
  have hv : ∀ r ∈ refs, r.marker ∈ refs.map (fun r2 => r2.marker) :=
    fun r hr => List.mem_map_of_mem _ hr
  have h1 : MarkerClean (refs.map fun r => r.marker)
      (String.mk (jsTrim text0.toList)).toList :=
    markerClean_mono hclean (jsTrim_substr _)
  have h2 : MarkerClean (refs.map fun r => r.marker)
      (stripModelProvidedEvidenceSections
        (String.mk (jsTrim text0.toList))).toList :=
    markerClean_mono h1 (stripSections_substr _)
  have h3 : MarkerClean (refs.map fun r => r.marker)
      (String.mk (jsTrim (stripModelProvidedEvidenceSections
        (String.mk (jsTrim text0.toList))).toList)).toList :=
    markerClean_mono h2 (jsTrim_substr _)
  have hpm : MarkerClean (refs.map fun r => r.marker)
      (joinSep " "
        ((((refs.filter fun r =>
              decide (r.sourceLabel = EvidenceSourceLabel.paper)) ++
            (refs.filter fun r =>
              decide (r.sourceLabel = EvidenceSourceLabel.thesis)) ++
            (refs.filter fun r =>
              decide (r.sourceLabel = EvidenceSourceLabel.thesisRedundant)) ++
            refs.filter fun r =>
              decide (r.sourceLabel = EvidenceSourceLabel.web ∨
                r.sourceLabel = EvidenceSourceLabel.source)).take 4).map
          fun r => "[" ++ r.marker ++ "]")).toList := by
    have hsub : ∀ r ∈ ((refs.filter fun r =>
          decide (r.sourceLabel = EvidenceSourceLabel.paper)) ++
        (refs.filter fun r =>
          decide (r.sourceLabel = EvidenceSourceLabel.thesis)) ++
        (refs.filter fun r =>
          decide (r.sourceLabel = EvidenceSourceLabel.thesisRedundant)) ++
        refs.filter fun r =>
          decide (r.sourceLabel = EvidenceSourceLabel.web ∨
            r.sourceLabel = EvidenceSourceLabel.source)).take 4, r ∈ refs := by
      intro r hr
      have hr2 := (List.take_sublist _ _).subset hr
      rcases List.mem_append.1 hr2 with h | h
      · rcases List.mem_append.1 h with h | h
        · rcases List.mem_append.1 h with h | h
          · exact List.mem_of_mem_filter h
          · exact List.mem_of_mem_filter h
        · exact List.mem_of_mem_filter h
      · exact List.mem_of_mem_filter h
    exact markerClean_markerJoin _ (fun r hr => hmark r (hsub r hr))
      (fun r hr => hv r (hsub r hr))
  unfold enforceCitationContract
  simp only []
  rw [strip_eq_self h2]
  refine markerClean_ite _ _ _
    (markerClean_trim_join _ "\n\n" _
      (markerClean_ite _ _ _
        (markerClean_trim_join _ "\n\n" _
          (markerClean_ite _ _ _
            (markerClean_trim_join _ "\n\nPrimary evidence: " _ h3 hpm rfl
              (by decide)) h3)
          (markerClean_noteBlock _ ?_) rfl (by decide))
        (markerClean_ite _ _ _
          (markerClean_trim_join _ "\n\nPrimary evidence: " _ h3 hpm rfl
            (by decide)) h3))
      (markerClean_evidenceBlock hmark hv hfields) rfl (by decide))
    (markerClean_ite _ _ _
      (markerClean_trim_join _ "\n\n" _
        (markerClean_ite _ _ _
          (markerClean_trim_join _ "\n\nPrimary evidence: " _ h3 hpm rfl
            (by decide)) h3)
        (markerClean_noteBlock _ ?_) rfl (by decide))
      (markerClean_ite _ _ _
        (markerClean_trim_join _ "\n\nPrimary evidence: " _ h3 hpm rfl
          (by decide)) h3))
  all_goals
    intro note hn
    rcases List.mem_append.1 hn with h | h
    · rcases List.mem_append.1 h with h | h
      · rcases List.mem_append.1 h with h | h
        · rw [mem_ite_singleton h]
          intro hmem
          rcases List.mem_append.1 hmem with h2 | h2
          · rcases List.mem_append.1 h2 with h3 | h3
            · exact absurd h3 (by decide)
            · exact htarget h3
          · exact absurd h2 (by decide)
        · rcases mem_ite_pair h with h | h
          · rw [h]
            decide
          · rw [h]
            decide
      · rw [mem_ite_singleton h]
        decide
    · rw [mem_ite_singleton h]
      decide

/-- C5 counterexample: with no references (so no valid markers at all), the
single-pass strip of the nested input "[P[P99]1] hello" removes only the
inner [P99] and splices the surrounding characters into the brand-new
valid-form marker [P1], which survives in the final enforcer output. -/
theorem C5_enforce_cex :
    validMarkerFormB ['P', '1'] = true ∧
    (([] : List EvidenceReference).map fun r => r.marker) = [] ∧
    ContainsMarker
      (enforceCitationContract "q" c5Ctx "[P[P99]1] hello" []).responseText
      ['P', '1'] := by
  refine ⟨by decide, rfl, ?_⟩
  show SubstrOf ['[', 'P', '1', ']']
    (enforceCitationContract "q" c5Ctx "[P[P99]1] hello" []).responseText.toList
  refine ⟨[], [' ', 'h', 'e', 'l', 'l', 'o'], ?_⟩
  with_unfolding_all decide

/-- C5 (amended): every reference built by buildEvidenceReferences carries a
valid prefix+number marker; and whenever the model answer contains no
bracketed valid-form marker outside the assigned set (and the reference
display fields and the target document name contain no opening bracket),
the enforcer's final text contains no valid-form marker outside the
assigned set, and the strip pass leaves the known markers and all other
text verbatim. Unconditionally the property fails: a single-pass strip can
splice a new unknown marker out of the surrounding text. -/
theorem C5_enforce_amended :
    (∀ (chunks : List RagChunk) (docs : List RagDocument)
        (r : EvidenceReference), r ∈ buildEvidenceReferences chunks docs →
      validMarkerFormB r.marker.toList = true) ∧
    (∀ (query : String) (ctx : IntentContext) (text0 : String)
        (refs : List EvidenceReference),
      MarkerClean (refs.map fun r => r.marker) text0.toList →
      (∀ r ∈ refs, validMarkerFormB r.marker.toList = true) →
      (∀ r ∈ refs, '[' ∉ r.title.toList ∧ '[' ∉ r.venue.toList ∧
        '[' ∉ r.year.toList ∧ '[' ∉ r.chunkId.toList) →
      '[' ∉ (ctx.targetDocumentNames.headD "").toList →
      MarkerClean (refs.map fun r => r.marker)
        (enforceCitationContract query ctx text0 refs).responseText.toList ∧
      stripUnknownMarkers
        (stripModelProvidedEvidenceSections (String.mk (jsTrim text0.toList)))
        (refs.map fun r => r.marker) =
        stripModelProvidedEvidenceSections
          (String.mk (jsTrim text0.toList))) := by
  constructor
  · intro chunks docs r hr
    exact buildRefs_marker_form chunks docs r hr
  · intro query ctx text0 refs hclean hmark hfields htarget
    constructor
    · exact enforce_markerClean query ctx text0 refs hclean hmark hfields htarget
    · exact strip_eq_self (markerClean_mono
        (markerClean_mono hclean (jsTrim_substr _)) (stripSections_substr _))

/-- Witness for C5 (amended) on a concrete bracket-free answer and a
single paper reference. -/
theorem C5_enforce_amended_w :
    MarkerClean (([c5Ref] : List EvidenceReference).map fun r => r.marker)
      (enforceCitationContract "q" c5Ctx "The method works." [c5Ref]).responseText.toList ∧
    stripUnknownMarkers
      (stripModelProvidedEvidenceSections
        (String.mk (jsTrim "The method works.".toList)))
      (([c5Ref] : List EvidenceReference).map fun r => r.marker) =
      stripModelProvidedEvidenceSections
        (String.mk (jsTrim "The method works.".toList)) :=
  C5_enforce_amended.2 "q" c5Ctx "The method works." [c5Ref]
    (noBracket_markerClean (by decide))
    (by decide) (by decide) (by decide)

end ResearcherTwin
